import Mathlib

/-!
Shallow embedding of `TransitionManager.js` from the google-map-storyboard
repository (the version under `components/google-map-storyboard/`, which is the
most complete draft and the one the specification's line references point to).

The embedding models:

* `MTM` — the `MapTransitionManager`: the map (modelled by the camera centre,
  `none` when no map is attached), the `_idleListener` field, and the set of
  currently installed one-shot `idle` listeners.  Installed listeners are given
  fresh numeric handles so that cancellation of a previous subscription is an
  observable fact.  Camera commands and callback invocations are returned as an
  event trace.
* `LAM` — the `LinearAnimationManager`: transition state, forward flag, offset,
  the two polyline paths (`_prevLine` / `_nextLine` as `List α`), the pending
  animation frame (`window.requestAnimationFrame` continuation), and the
  embedded `MTM`.

Waypoints are an arbitrary type `α` with decidable equality
(`google.maps.LatLng.equals` is value equality).  The external spherical
interpolation primitive `google.maps.geometry.spherical.interpolate` is a
parameter `interp : α → α → ℚ → α` of the operations that use it.  Time and
offsets are rationals.
-/

namespace Storyboard

/-- `_ANIMATION_TIME_MS` of `LinearAnimationManager` (the initializer value
`3000`). -/
def ANIMATION_TIME_MS : ℚ := 3000

/-- The `TransitionState` enumeration. -/
inductive TState where
  | ANIMATING
  | IDLE
  | PAUSED
deriving DecidableEq

/-- A handler installed by `_uponMapIdle`.  In `panTo` (and in `fitBounds`
without pan-to-last) the handler is the caller's completion callback itself
(identified by a number); in `fitBounds` with pan-to-last it is
`this.panTo.bind(this, lastLocation, callback)`. -/
inductive Handler (α : Type) where
  | cb (c : Nat)
  | panThen (loc : Option α) (c : Option Nat)
deriving DecidableEq

/-- Observable camera/callback events emitted by `MapTransitionManager`
operations: a `map.fitBounds` command (with the points that were extended into
the bounds), a `map.panTo` command, and an invocation of a completion
callback. -/
inductive Ev (α : Type) where
  | fitCmd (pts : List α)
  | panCmd (p : α)
  | fired (c : Nat)
deriving DecidableEq

/-- State of a `MapTransitionManager`.  `center = none` models "no map
attached" (`this._map === null`); `center = some p` models an attached map
whose `getCenter()` is `p`.  `idleListener` is the `_idleListener` field (it
keeps pointing at a listener even after that listener has been removed, as in
the source).  `active` lists the installed, not yet removed or fired, one-shot
idle listeners with their handlers; `fresh` is the next unused handle. -/
structure MTM (α : Type) where
  center : Option α
  idleListener : Option Nat
  active : List (Nat × Handler α)
  fresh : Nat
deriving DecidableEq

/-- A fresh `MapTransitionManager` on a map with centre `c` (no map when
`c = none`). -/
def MTM.init (c : Option α) : MTM α := ⟨c, none, [], 0⟩

/-- The `map` setter of `MapTransitionManager` (it only assigns `_map` and does
not touch the idle listener). -/
def MTM.setMap (m : MTM α) (c : Option α) : MTM α := { m with center := c }

/-- `_uponMapIdle(handler)`: first `google.maps.event.removeListener
(this._idleListener)` (a no-op when the field is `null` or stale), then, if a
handler is given, install a one-shot idle listener for it and remember it in
`_idleListener`. -/
def MTM.uponMapIdle (m : MTM α) (h : Option (Handler α)) : MTM α :=
  let act := match m.idleListener with
    | some k => m.active.filter (fun x => x.1 ≠ k)
    | none => m.active
  match h with
  | some hd =>
      { m with active := act ++ [(m.fresh, hd)],
               idleListener := some m.fresh, fresh := m.fresh + 1 }
  | none => { m with active := act }

/-- `removeIdleBehavior()` — `this._uponMapIdle(null)`. -/
def MTM.removeIdleBehavior (m : MTM α) : MTM α := m.uponMapIdle none

/-- The event trace of invoking an optional completion callback. -/
def fireEvt (c : Option Nat) : List (Ev α) :=
  match c with
  | some k => [Ev.fired k]
  | none => []

/-- `location.equals(other)` where `other` may be absent or invalid:
`google.maps.LatLng.equals` returns `false` unless the argument is a `LatLng`
with equal coordinates. -/
def sameAs [DecidableEq α] (p : α) (q : Option α) : Bool :=
  match q with
  | some x => p = x
  | none => false

/-- `MapTransitionManager.panTo(location, onTransitionComplete)`.  Removes the
idle behavior; if the location is valid, a map is attached, and the camera is
not already centred there, issues the pan command and defers the callback to
the next idle event (note that `_uponMapIdle` installs nothing when the
callback is absent); otherwise invokes the callback at once.  The model sets
`center` to the pan target when the command is issued. -/
def MTM.panTo [DecidableEq α] (m : MTM α) (loc : Option α) (cb : Option Nat) :
    MTM α × List (Ev α) :=
  let m := m.removeIdleBehavior
  match loc, m.center with
  | some p, some ctr =>
      if ctr = p then (m, fireEvt cb)
      else ({ m.uponMapIdle (cb.map Handler.cb) with center := some p },
            [Ev.panCmd p])
  | _, _ => (m, fireEvt cb)

/-- `MapTransitionManager.fitBounds(locations, panToLastLocation, callback)`.
Returns unchanged when no map is attached (`if (!this._map) return;`).  The
`for` loop scans the longest prefix of truthy entries, extending each into the
bounds and comparing it against `locations[locations.length - 1]`.  If some
scanned entry differs from the last entry the fit command is issued, otherwise
the call degrades to `panTo` of the last entry. -/
def MTM.fitBounds [DecidableEq α] (m : MTM α) (locations : List (Option α))
    (panToLast : Bool) (cb : Option Nat) : MTM α × List (Ev α) :=
  if m.center = none then (m, [])
  else
    let m := m.removeIdleBehavior
    let lastLocation : Option α := (locations.getLast?).join
    let scanned : List α := (locations.takeWhile fun o => o.isSome).filterMap id
    let hasDiffLocations := scanned.any (fun p => ! sameAs p lastLocation)
    if hasDiffLocations then
      if panToLast then
        (m.uponMapIdle (some (Handler.panThen lastLocation cb)),
         [Ev.fitCmd scanned])
      else
        (m.uponMapIdle (cb.map Handler.cb), [Ev.fitCmd scanned])
    else
      m.panTo lastLocation cb

/-- The external map surface reports `idle`: the (at most one, under the
coordinator's invariant) installed one-shot listener fires and is removed.
`Handler.panThen` continues with `panTo(lastLocation, callback)` as the bound
function does in the source. -/
def MTM.fireIdle [DecidableEq α] (m : MTM α) : MTM α × List (Ev α) :=
  match m.active with
  | [] => (m, [])
  | (_, h) :: rest =>
      let m := { m with active := rest }
      match h with
      | Handler.cb c => (m, fireEvt (some c))
      | Handler.panThen loc c => m.panTo loc c

/-- The coordinator invariant: at most one idle listener is outstanding, the
outstanding one (if any) is the one recorded in `_idleListener`, and every
outstanding handle is below the fresh counter. -/
def MTM.Inv (m : MTM α) : Prop :=
  m.active.length ≤ 1 ∧
  ∀ x ∈ m.active, some x.1 = m.idleListener ∧ x.1 < m.fresh

/-- Shape of the coordinator after a camera call under the invariant: the
previously pending subscriptions were cleared, and at most one fresh
subscription (with handle `m.fresh`) was installed. -/
def FreshShape (m r : MTM α) : Prop :=
  r.active = [] ∨
  ∃ hd, r.active = [(m.fresh, hd)] ∧ r.idleListener = some m.fresh ∧
    m.fresh < r.fresh

/-! ### Path (`MVCArray`) primitives

`google.maps.MVCArray` index arguments follow JavaScript `splice`
normalization: a negative index counts from the end (clamped at 0), an index
past the end clamps to the length. -/

/-- Splice-style index normalization for a list of length `len`. -/
def splicePos (len : Nat) (i : Int) : Nat :=
  if i < 0 then (max (i + len) 0).toNat else min i.toNat len

/-- `path.insertAt(i, x)` with splice index normalization. -/
def jsInsertAt (l : List α) (i : Int) (x : α) : List α :=
  l.insertIdx (splicePos l.length i) x

/-- `path.removeAt(i)`: removes the element at the normalized position when it
exists, otherwise leaves the path unchanged. -/
def jsRemoveAt (l : List α) (i : Int) : List α :=
  let p := splicePos l.length i
  if p < l.length then l.eraseIdx p else l

/-- `path.setAt(i, x)`: replaces the element at `i` when `i` is in range,
otherwise leaves the path unchanged (an out-of-range assignment does not
become part of the path). -/
def jsSetAt (l : List α) (i : Int) (x : α) : List α :=
  if 0 ≤ i ∧ i < l.length then l.set i.toNat x else l

/-- The helper `setLast(polyline, location)`:
`path.setAt(path.length - 1, location)`. -/
def setLast (l : List α) (x : α) : List α :=
  jsSetAt l ((l.length : Int) - 1) x

/-- The helper `getPointOnLine(polyline, index)` (single wrap-around: an index
below the last negative index yields the first point, an index past the end
yields the last point; `undefined` on an empty path). -/
def getPointOnLine (l : List α) (index : Int) : Option α :=
  let len : Int := l.length
  let i : Int := if index < 0 then max (index + len) 0 else min index (len - 1)
  l[i.toNat]?

/-- `line.getPath().push(getPointOnLine(line, -1))` in `_startAnimation`:
appends a copy of the last point.  (On an empty path the source would push
`undefined`; the model leaves the empty path unchanged, and every theorem that
exercises this code path carries a nonemptiness hypothesis.) -/
def dupLast (l : List α) : List α :=
  match l.getLast? with
  | some x => l ++ [x]
  | none => l

/-! ### LinearAnimationManager -/

/-- The pending `requestAnimationFrame` continuation of the animation loop.
`first` is the initial `step.bind(this)` call (it receives the timestamp as
`startTime` and has `currentTime` undefined); `cont` is a rescheduled
`step.bind(this, startTime)`.  The closure variables `resume` and
`onTransitionComplete` are carried with it. -/
inductive Frame where
  | first (resume : Bool) (cb : Option Nat)
  | cont (startTime : ℚ) (cb : Option Nat)
deriving DecidableEq

/-- State of a `LinearAnimationManager`: `_state`, `_offset`, `_forward`, the
pending animation frame (`_intervalId` merged with the scheduled `step`
closure), the paths of `_prevLine` and `_nextLine`, and the owned
`MapTransitionManager`. -/
structure LAM (α : Type) where
  state : TState
  offset : ℚ
  forward : Bool
  pendingFrame : Option Frame
  prevPath : List α
  nextPath : List α
  mtm : MTM α
deriving DecidableEq

/-- A fresh `LinearAnimationManager` on a map with centre `c`. -/
def LAM.init (c : Option α) : LAM α :=
  { state := TState.IDLE, offset := 0, forward := true, pendingFrame := none,
    prevPath := [], nextPath := [], mtm := MTM.init c }

/-- `isIdle()`. -/
def LAM.isIdle (s : LAM α) : Bool := s.state = TState.IDLE

/-- `isAnimating()`. -/
def LAM.isAnimating (s : LAM α) : Bool := s.state = TState.ANIMATING

/-- `isPaused()`. -/
def LAM.isPaused (s : LAM α) : Bool := s.state = TState.PAUSED

/-- `getCurrentIndex()`: `prevLine` path length minus one; during a backward
animation or pause this is decremented once more (the index of the upcoming
location). -/
def LAM.getCurrentIndex (s : LAM α) : Int :=
  let index : Int := (s.prevPath.length : Int) - 1
  if s.isIdle || s.forward then index else index - 1

/-- The `length` getter: combined path lengths minus the shared point, clamped
at 0, and minus the transient animation point when not idle. -/
def LAM.length (s : LAM α) : Int :=
  let L : Int := (s.prevPath.length : Int) + (s.nextPath.length : Int) - 1
  if L < 0 then 0 else if s.isIdle then L else L - 1

/-- `getHeadingOfAnimation()`: 0 when idle, 1 forward, -1 backward. -/
def LAM.getHeadingOfAnimation (s : LAM α) : Int :=
  if s.isIdle then 0 else if s.forward then 1 else -1

/-- `hasNext()`. -/
def LAM.hasNext (s : LAM α) : Bool :=
  if s.isAnimating && s.forward then s.nextPath.length > 2
  else s.nextPath.length > 1

/-- `hasPrev()`. -/
def LAM.hasPrev (s : LAM α) : Bool :=
  if s.isAnimating && !s.forward then s.prevPath.length > 2
  else s.prevPath.length > 1

/-- `_cancelAnimation()`: returns at once when idle, otherwise cancels the
pending animation frame. -/
def LAM.cancelAnimation (s : LAM α) : LAM α :=
  if s.isIdle then s else { s with pendingFrame := none }

/-- `clear()`: cancels the animation, clears both paths, removes the idle
behavior and goes idle. -/
def LAM.clear (s : LAM α) : LAM α :=
  let s := s.cancelAnimation
  { s with prevPath := [], nextPath := [],
           mtm := s.mtm.removeIdleBehavior, state := TState.IDLE }

/-- `isEmpty()`. -/
def LAM.isEmpty (s : LAM α) : Bool := s.length < 1

/-- `pause()`: no-op when idle; otherwise goes to `PAUSED`, cancels the pending
frame and removes the idle behavior. -/
def LAM.pause (s : LAM α) : LAM α :=
  if s.isIdle then s
  else
    let s := { s with state := TState.PAUSED }
    let s := s.cancelAnimation
    { s with mtm := s.mtm.removeIdleBehavior }

/-- `_updateWaypoint()`: when not idle, interpolates between the second-to-last
points of the two lines at the current offset and writes the waypoint into the
last slot of both lines.  (When either endpoint is missing — only possible in
degenerate path states the theorems exclude — the source would hand
`undefined` to the external interpolator; the model leaves the paths
unchanged.) -/
def LAM.updateWaypoint (interp : α → α → ℚ → α) (s : LAM α) : LAM α :=
  if s.isIdle then s
  else
    match getPointOnLine s.prevPath (-2), getPointOnLine s.nextPath (-2) with
    | some a, some b =>
        let wayPoint := interp a b s.offset
        { s with nextPath := setLast s.nextPath wayPoint,
                 prevPath := setLast s.prevPath wayPoint }
    | _, _ => s

/-- `_panToAnimatingLineSegment()`: when animating, fits the bounds to the two
second-to-last points of the lines (no pan-to-last, no callback). -/
def LAM.panToAnimatingLineSegment [DecidableEq α] (s : LAM α) : LAM α :=
  if !s.isAnimating then s
  else
    { s with mtm := (s.mtm.fitBounds
        [getPointOnLine s.prevPath (-2), getPointOnLine s.nextPath (-2)]
        false none).1 }

/-- `finishAnimation(finishTransition, onTransitionComplete)`: no-op when idle;
otherwise cancels the pending frame, goes idle, pops the transient point from
the trailing line (`(this._forward && this._nextLine) || this._prevLine`),
reads the new current location from that line and writes it into the last slot
of the other line; finally either pans the camera there or invokes the
callback directly. -/
def LAM.finishAnimation [DecidableEq α] (finishTransition : Bool)
    (cb : Option Nat) (s : LAM α) : LAM α :=
  if s.isIdle then s
  else
    let s := s.cancelAnimation
    let s := { s with state := TState.IDLE }
    let s := if s.forward then { s with nextPath := s.nextPath.dropLast }
             else { s with prevPath := s.prevPath.dropLast }
    let currentLoc := if s.forward then getPointOnLine s.nextPath (-1)
                      else getPointOnLine s.prevPath (-1)
    let s := match currentLoc with
      | some x =>
          if s.forward then { s with prevPath := setLast s.prevPath x }
          else { s with nextPath := setLast s.nextPath x }
      | none => s
    if finishTransition then { s with mtm := (s.mtm.panTo currentLoc cb).1 }
    else s

/-- `setCurrentIndex(index, onTransitionComplete)`: finishes any animation
abruptly, flattens the two paths into the total path (dropping the shared
point from the reversed next path), clamps the index, rebuilds both paths
around it and fits the bounds to the old and the new current location with a
pan to the latter. -/
def LAM.setCurrentIndex [DecidableEq α] (index : Int) (cb : Option Nat)
    (s : LAM α) : LAM α :=
  let s := s.finishAnimation false none
  let firstLoc : Option α := s.nextPath.getLast?
  let totalPath := s.prevPath ++ s.nextPath.dropLast.reverse
  let index : Int := max 0 (min index ((totalPath.length : Int) - 1))
  let s := { s with prevPath := totalPath.take (index.toNat + 1),
                    nextPath := (totalPath.drop index.toNat).reverse }
  { s with mtm := (s.mtm.fitBounds [firstLoc, totalPath[index.toNat]?]
      true cb).1 }

/-- `isUpdateRequiredIfRemoveAt(index)`. -/
def LAM.isUpdateRequiredIfRemoveAt (index : Int) (s : LAM α) : Bool :=
  let totalLength := s.length
  if index ≥ totalLength then false
  else if totalLength ≤ 1 then false
  else
    let index := if index < 0 then 0 else index
    let currentIndex : Int := (s.prevPath.length : Int) - 1
    if s.isIdle then index = currentIndex
    else if index < 1 && index = currentIndex - 1 then true
    else if index = totalLength - 1 && index = currentIndex then true
    else false

/-- `removeAt(index)`: ignores an index past the end; clears when at most one
location remains; otherwise, when an update is required, first moves the
current index to the most adjacent position via `setCurrentIndex`, then
removes the location from the owning path, and finally refreshes the waypoint
and the viewport when a non-idle active segment endpoint changed. -/
def LAM.removeAt [DecidableEq α] (interp : α → α → ℚ → α) (index : Int)
    (s : LAM α) : LAM α :=
  let totalLength := s.length
  if index ≥ totalLength then s
  else if totalLength ≤ 1 then s.clear
  else
    let index := if index < 0 then 0 else index
    let currentIndex : Int := (s.prevPath.length : Int) - 1
    let upd := s.isUpdateRequiredIfRemoveAt index
    let currentIndex := if upd then (if index < 1 then 1 else index - 1)
                        else currentIndex
    let s := if upd then s.setCurrentIndex currentIndex none else s
    let reverseIndex := totalLength - index - 1
    let s := if index < currentIndex then
               { s with prevPath := jsRemoveAt s.prevPath index }
             else
               { s with nextPath := jsRemoveAt s.nextPath reverseIndex }
    if !s.isIdle && (index = currentIndex - 1 || index = currentIndex) then
      (s.updateWaypoint interp).panToAnimatingLineSegment
    else s

/-- `insertAt(index, location)`: ignores an invalid location; the first
location is inserted into both paths; otherwise the location goes into the
owning path (`reverseIndex = this.length - index` for the reversed next path);
finally the waypoint and viewport refresh when a non-idle active segment
endpoint changed. -/
def LAM.insertAt [DecidableEq α] (interp : α → α → ℚ → α) (index : Int)
    (location : Option α) (s : LAM α) : LAM α :=
  match location with
  | none => s
  | some loc =>
    let currentIndex : Int := (s.prevPath.length : Int) - 1
    let s :=
      if currentIndex < 0 then
        { s with prevPath := jsInsertAt s.prevPath 0 loc,
                 nextPath := jsInsertAt s.nextPath 0 loc }
      else if index > currentIndex then
        { s with nextPath := jsInsertAt s.nextPath (s.length - index) loc }
      else
        { s with prevPath := jsInsertAt s.prevPath index loc }
    if !s.isIdle && (index = currentIndex - 1 || index = currentIndex) then
      (s.updateWaypoint interp).panToAnimatingLineSegment
    else s

/-- `setAt(index, location)`: ignores an invalid location; setting the idle
current index rewrites the shared last slot of both paths and pans there;
otherwise the owning path is updated in place
(`reverseIndex = this.length - index - 1`); finally the waypoint and viewport
refresh when a non-idle active segment endpoint changed. -/
def LAM.setAt [DecidableEq α] (interp : α → α → ℚ → α) (index : Int)
    (location : Option α) (s : LAM α) : LAM α :=
  match location with
  | none => s
  | some loc =>
    let currentIndex : Int := (s.prevPath.length : Int) - 1
    let s :=
      if index = currentIndex ∧ s.isIdle then
        let s := { s with prevPath := setLast s.prevPath loc,
                          nextPath := setLast s.nextPath loc }
        { s with mtm := (s.mtm.panTo (some loc) none).1 }
      else if index < currentIndex then
        { s with prevPath := jsSetAt s.prevPath index loc }
      else
        { s with nextPath := jsSetAt s.nextPath (s.length - index - 1) loc }
    if !s.isIdle && (index = currentIndex - 1 || index = currentIndex) then
      (s.updateWaypoint interp).panToAnimatingLineSegment
    else s

/-- `_startAnimation(forward, onTransitionComplete)`: removes the idle
behavior; if animating in the same direction finishes abruptly, if animating
in the opposite direction pauses; sets the direction; unless resuming from a
pause, pushes a copy of the current point onto the line in the direction of
travel; goes to `ANIMATING`, frames the camera on the active segment and
schedules the first animation frame (with the captured `resume` flag). -/
def LAM.startAnimation [DecidableEq α] (interp : α → α → ℚ → α)
    (forward : Bool) (cb : Option Nat) (s : LAM α) : LAM α :=
  let _ := interp
  let s := { s with mtm := s.mtm.removeIdleBehavior }
  let s := if s.isAnimating then
             (if forward = s.forward then s.finishAnimation false none
              else s.pause)
           else s
  let s := { s with forward := forward }
  let resume := s.isPaused
  let s := if resume then s
           else if forward then { s with prevPath := dupLast s.prevPath }
           else { s with nextPath := dupLast s.nextPath }
  let s := { s with state := TState.ANIMATING }
  let s := s.panToAnimatingLineSegment
  { s with pendingFrame := some (Frame.first resume cb) }

/-- `next(onTransitionComplete)`. -/
def LAM.next [DecidableEq α] (interp : α → α → ℚ → α) (cb : Option Nat)
    (s : LAM α) : LAM α :=
  if s.hasNext then s.startAnimation interp true cb else s

/-- `prev(onTransitionComplete)`. -/
def LAM.prev [DecidableEq α] (interp : α → α → ℚ → α) (cb : Option Nat)
    (s : LAM α) : LAM α :=
  if s.hasPrev then s.startAnimation interp false cb else s

/-- One execution of the `step` closure of `_startAnimation` with explicit
`startTime`/`currentTime`, the captured `resume` flag and callback.  On a
resumed first frame the offset is taken from the stored `_offset` (translated
to the forward sense) and a virtual start time is synthesized
(`startTime -= diffTime`).  At offset 1 the animation completes through
`finishAnimation(true)`; otherwise the offset and the waypoint are updated and
the next frame is scheduled. -/
def LAM.step [DecidableEq α] (interp : α → α → ℚ → α)
    (startTime currentTime : ℚ) (resume : Bool) (cb : Option Nat)
    (s : LAM α) : LAM α :=
  let diffTime := currentTime - startTime
  let fromOffset := diffTime / ANIMATION_TIME_MS
  let fromOffset := if resume then (if s.forward then s.offset else 1 - s.offset)
                    else fromOffset
  let startTime := if resume then startTime - fromOffset * ANIMATION_TIME_MS
                   else startTime
  if fromOffset ≥ 1 then s.finishAnimation true cb
  else
    let s := { s with offset := if s.forward then fromOffset else 1 - fromOffset }
    let s := s.updateWaypoint interp
    { s with pendingFrame := some (Frame.cont startTime cb) }

/-- The external frame clock fires at time `t`: the pending animation frame
(if any) is consumed and its `step` runs.  A `first` frame receives `t` as its
timestamp (`startTime`, with `currentTime` defaulted to it); a `cont` frame
keeps its stored `startTime`. -/
def LAM.tick [DecidableEq α] (interp : α → α → ℚ → α) (t : ℚ) (s : LAM α) :
    LAM α :=
  match s.pendingFrame with
  | none => s
  | some (Frame.first r cb) =>
      LAM.step interp t t r cb { s with pendingFrame := none }
  | some (Frame.cont st cb) =>
      LAM.step interp st t false cb { s with pendingFrame := none }

/-- A sequence of frame-clock firings. -/
def LAM.ticks [DecidableEq α] (interp : α → α → ℚ → α) (ts : List ℚ)
    (s : LAM α) : LAM α :=
  ts.foldl (fun s t => LAM.tick interp t s) s

/-! ### Representation of reachable engine states

A reachable engine state over a logical waypoint path `w` is, when idle, a
pair of buffers sharing the cursor waypoint as their common tail; when
animating or paused, the two buffers additionally carry the transient
interpolated waypoint `wp` as a common last element, and the second-to-last
elements are the endpoints of the active segment. -/

/-- Idle state over logical path `w` with cursor `c` (whose waypoint is `t`). -/
def reprIdleAt (s : LAM α) (w : List α) (c : Nat) (t : α) : Prop :=
  s.state = TState.IDLE ∧ w[c]? = some t ∧
  s.prevPath = w.take c ++ [t] ∧
  s.nextPath = (w.drop (c + 1)).reverse ++ [t]

/-- Idle state over logical path `w` with cursor `c`. -/
def reprIdle (s : LAM α) (w : List α) (c : Nat) : Prop :=
  ∃ t, reprIdleAt s w c t

/-- Forward animation (or pause) over `w`, departing cursor `c` (waypoint `t`)
toward `c + 1` (waypoint `u`), with transient shared tail `wp`. -/
def reprFwdAt (s : LAM α) (w : List α) (c : Nat) (t u wp : α) : Prop :=
  s.state ≠ TState.IDLE ∧ s.forward = true ∧
  w[c]? = some t ∧ w[c + 1]? = some u ∧
  s.prevPath = (w.take c ++ [t]) ++ [wp] ∧
  s.nextPath = ((w.drop (c + 2)).reverse ++ [u]) ++ [wp]

/-- Backward animation (or pause) over `w`, departing cursor `c` (waypoint
`u`) toward `c - 1` (waypoint `t`), with transient shared tail `wp`. -/
def reprBwdAt (s : LAM α) (w : List α) (c : Nat) (t u wp : α) : Prop :=
  s.state ≠ TState.IDLE ∧ s.forward = false ∧ 1 ≤ c ∧
  w[c - 1]? = some t ∧ w[c]? = some u ∧
  s.prevPath = (w.take (c - 1) ++ [t]) ++ [wp] ∧
  s.nextPath = ((w.drop (c + 1)).reverse ++ [u]) ++ [wp]

/-- Invariant along a forward animation started from cursor `c` toward the
waypoint `u` at `c + 1`: either the transient animation state is still in
place, or the animation has completed and the engine is idle at `c + 1` with
no pending frame. -/
def FwdRun (w : List α) (c : Nat) (u : α) (r : LAM α) : Prop :=
  (∃ t wp, reprFwdAt r w c t u wp) ∨
  (reprIdleAt r w (c + 1) u ∧ r.pendingFrame = none)

/-- Invariant along a backward animation started from cursor `c` toward the
waypoint `t` at `c - 1`. -/
def BwdRun (w : List α) (c : Nat) (t : α) (r : LAM α) : Prop :=
  (∃ u wp, reprBwdAt r w c t u wp) ∨
  (reprIdleAt r w (c - 1) t ∧ r.pendingFrame = none)

/-! ### Basic facts about the path primitives -/

theorem insertIdx_eq_take_cons_drop (l : List α) (p : Nat) (x : α)
    (h : p ≤ l.length) : l.insertIdx p x = l.take p ++ x :: l.drop p := by
  induction l generalizing p with
  | nil =>
    have : p = 0 := by simpa using h
    subst this; rfl
  | cons a t ih =>
    cases p with
    | zero => rfl
    | succ q =>
      simp only [List.insertIdx_succ_cons, List.take_succ_cons,
        List.drop_succ_cons, List.cons_append]
      rw [ih q (by simpa using h)]

theorem splicePos_le (len : Nat) (i : Int) : splicePos len i ≤ len := by
  simp only [splicePos]
  split <;> omega

theorem jsInsertAt_eq (l : List α) (i : Int) (x : α) :
    jsInsertAt l i x =
      l.take (splicePos l.length i) ++ x :: l.drop (splicePos l.length i) :=
  insertIdx_eq_take_cons_drop l _ x (splicePos_le _ _)

theorem length_jsInsertAt (l : List α) (i : Int) (x : α) :
    (jsInsertAt l i x).length = l.length + 1 :=
  List.length_insertIdx _ _ (splicePos_le _ _)

theorem length_jsSetAt (l : List α) (i : Int) (x : α) :
    (jsSetAt l i x).length = l.length := by
  simp only [jsSetAt]
  split
  · exact List.length_set l _ x
  · rfl

theorem length_setLast (l : List α) (x : α) :
    (setLast l x).length = l.length := length_jsSetAt l _ x

theorem setLast_nil (x : α) : setLast ([] : List α) x = [] := by
  simp [setLast, jsSetAt]

theorem setLast_concat (l : List α) (x y : α) :
    setLast (l ++ [x]) y = l ++ [y] := by
  have hl : ((l ++ [x]).length : Int) - 1 = (l.length : Int) := by
    simp
  simp only [setLast, hl, jsSetAt]
  rw [if_pos ⟨by omega, by simp⟩]
  rw [show ((l.length : Int)).toNat = l.length from rfl, List.set_append]
  simp

theorem dupLast_concat (l : List α) (x : α) :
    dupLast (l ++ [x]) = (l ++ [x]) ++ [x] := by
  simp [dupLast, List.getLast?_concat]

theorem getPointOnLine_neg_one (l : List α) :
    getPointOnLine l (-1) = l.getLast? := by
  rcases Nat.eq_zero_or_pos l.length with h | h
  · have hnil : l = [] := List.length_eq_zero.mp h
    subst hnil; rfl
  · have h1 : ((-1 : Int) < 0) := by omega
    have h2 : (max (-1 + (l.length : Int)) 0) = (l.length : Int) - 1 := by
      omega
    simp only [getPointOnLine, if_pos h1, h2]
    have h3 : ((l.length : Int) - 1).toNat = l.length - 1 := by omega
    rw [h3, ← List.getLast?_eq_getElem?]

theorem getPointOnLine_concat_neg_two (l : List α) (x : α) (h : l ≠ []) :
    getPointOnLine (l ++ [x]) (-2) = l.getLast? := by
  have hlen : 1 ≤ l.length := List.length_pos.mpr h
  have h1 : ((-2 : Int) < 0) := by omega
  have h2 : (max (-2 + ((l ++ [x]).length : Int)) 0) = ((l.length : Int) - 1) := by
    simp only [List.length_append, List.length_cons, List.length_nil]
    omega
  simp only [getPointOnLine, if_pos h1, h2]
  have h3 : (((l.length : Int)) - 1).toNat = l.length - 1 := by omega
  rw [h3, List.getElem?_append_left (by omega), ← List.getLast?_eq_getElem?]

theorem reprIdleAt_lt {s : LAM α} {w : List α} {c : Nat} {t : α}
    (h : reprIdleAt s w c t) : c < w.length := by
  have := h.2.1
  exact (List.getElem?_eq_some.mp this).1

theorem reprIdleAt_lengths {s : LAM α} {w : List α} {c : Nat} {t : α}
    (h : reprIdleAt s w c t) :
    s.prevPath.length = c + 1 ∧ s.nextPath.length = w.length - c := by
  obtain ⟨-, hc, hp, hn⟩ := h
  have hlt : c < w.length := (List.getElem?_eq_some.mp hc).1
  constructor
  · rw [hp]; simp; omega
  · rw [hn]; simp; omega

theorem reprFwdAt_lt {s : LAM α} {w : List α} {c : Nat} {t u wp : α}
    (h : reprFwdAt s w c t u wp) : c + 1 < w.length :=
  (List.getElem?_eq_some.mp h.2.2.2.1).1

theorem reprFwdAt_lengths {s : LAM α} {w : List α} {c : Nat} {t u wp : α}
    (h : reprFwdAt s w c t u wp) :
    s.prevPath.length = c + 2 ∧ s.nextPath.length = w.length - c := by
  obtain ⟨-, -, hc, hc1, hp, hn⟩ := h
  have hlt : c + 1 < w.length := (List.getElem?_eq_some.mp hc1).1
  have hlt0 : c < w.length := by omega
  constructor
  · rw [hp]; simp; omega
  · rw [hn]; simp; omega

theorem reprBwdAt_lt {s : LAM α} {w : List α} {c : Nat} {t u wp : α}
    (h : reprBwdAt s w c t u wp) : c < w.length :=
  (List.getElem?_eq_some.mp h.2.2.2.2.1).1

theorem reprBwdAt_lengths {s : LAM α} {w : List α} {c : Nat} {t u wp : α}
    (h : reprBwdAt s w c t u wp) :
    s.prevPath.length = c + 1 ∧ s.nextPath.length = w.length - c + 1 := by
  obtain ⟨-, -, hc1, ht, hu, hp, hn⟩ := h
  have hlt : c < w.length := (List.getElem?_eq_some.mp hu).1
  constructor
  · rw [hp]; simp; omega
  · rw [hn]; simp; omega

theorem take_succ_of_getElem {w : List α} {c : Nat} {t : α}
    (h : w[c]? = some t) : w.take (c + 1) = w.take c ++ [t] := by
  rw [List.take_succ, h]; rfl

theorem drop_of_getElem {w : List α} {c : Nat} {t : α}
    (h : w[c]? = some t) : w.drop c = t :: w.drop (c + 1) := by
  obtain ⟨hlt, he⟩ := List.getElem?_eq_some.mp h
  rw [List.drop_eq_getElem_cons hlt, he]

theorem reverse_drop_of_getElem {w : List α} {c : Nat} {t : α}
    (h : w[c]? = some t) :
    (w.drop c).reverse = (w.drop (c + 1)).reverse ++ [t] := by
  rw [drop_of_getElem h]; simp

/-! ### State predicates as booleans -/

theorem isIdle_false {s : LAM α} (h : s.state ≠ TState.IDLE) :
    s.isIdle = false := by
  simp [LAM.isIdle, h]

theorem isIdle_true {s : LAM α} (h : s.state = TState.IDLE) :
    s.isIdle = true := by
  simp [LAM.isIdle, h]

theorem isAnimating_false {s : LAM α} (h : s.state ≠ TState.ANIMATING) :
    s.isAnimating = false := by
  simp [LAM.isAnimating, h]

theorem isPaused_of_state {s : LAM α} :
    s.isPaused = decide (s.state = TState.PAUSED) := rfl

/-! ### Characterization of `finishAnimation` -/

theorem finishAnimation_of_idle {s : LAM α} [DecidableEq α]
    (h : s.state = TState.IDLE) (ft : Bool) (cb : Option Nat) :
    s.finishAnimation ft cb = s := by
  simp [LAM.finishAnimation, isIdle_true h]

theorem finishAnimation_fwdAt {s : LAM α} [DecidableEq α] {w : List α}
    {c : Nat} {t u wp : α} (hr : reprFwdAt s w c t u wp) (ft : Bool)
    (cb : Option Nat) :
    s.finishAnimation ft cb =
      { s with state := TState.IDLE, pendingFrame := none,
               prevPath := (w.take c ++ [t]) ++ [u],
               nextPath := (w.drop (c + 2)).reverse ++ [u],
               mtm := if ft then (s.mtm.panTo (some u) cb).1 else s.mtm } := by
  obtain ⟨hs, hf, hc, hc1, hp, hn⟩ := hr
  simp only [LAM.finishAnimation, isIdle_false hs, Bool.false_eq_true, if_false,
    LAM.cancelAnimation, hf, if_true, hn, List.dropLast_concat,
    getPointOnLine_neg_one, List.getLast?_concat, hp, setLast_concat]
  split <;> rfl

theorem finishAnimation_bwdAt {s : LAM α} [DecidableEq α] {w : List α}
    {c : Nat} {t u wp : α} (hr : reprBwdAt s w c t u wp) (ft : Bool)
    (cb : Option Nat) :
    s.finishAnimation ft cb =
      { s with state := TState.IDLE, pendingFrame := none,
               prevPath := w.take (c - 1) ++ [t],
               nextPath := ((w.drop (c + 1)).reverse ++ [u]) ++ [t],
               mtm := if ft then (s.mtm.panTo (some t) cb).1 else s.mtm } := by
  obtain ⟨hs, hf, hc1, ht, hu, hp, hn⟩ := hr
  simp only [LAM.finishAnimation, isIdle_false hs, Bool.false_eq_true, if_false,
    LAM.cancelAnimation, hf, if_true, hp, List.dropLast_concat,
    getPointOnLine_neg_one, List.getLast?_concat, hn, setLast_concat]
  split <;> rfl

theorem reprIdleAt_finishAnimation_fwd {s : LAM α} [DecidableEq α]
    {w : List α} {c : Nat} {t u wp : α} (hr : reprFwdAt s w c t u wp)
    (ft : Bool) (cb : Option Nat) :
    reprIdleAt (s.finishAnimation ft cb) w (c + 1) u := by
  rw [finishAnimation_fwdAt hr ft cb]
  refine ⟨rfl, hr.2.2.2.1, ?_, rfl⟩
  simp only [take_succ_of_getElem hr.2.2.1]

theorem reprIdleAt_finishAnimation_bwd {s : LAM α} [DecidableEq α]
    {w : List α} {c : Nat} {t u wp : α} (hr : reprBwdAt s w c t u wp)
    (ft : Bool) (cb : Option Nat) :
    reprIdleAt (s.finishAnimation ft cb) w (c - 1) t := by
  rw [finishAnimation_bwdAt hr ft cb]
  refine ⟨rfl, hr.2.2.2.1, rfl, ?_⟩
  have h1 : 1 ≤ c := hr.2.2.1
  have hc : c - 1 + 1 = c := by omega
  rw [hc, reverse_drop_of_getElem hr.2.2.2.2.1]

/-! ### Characterization of `_startAnimation`, `next` and `prev` -/

theorem startAnimation_fwd_idleAt [DecidableEq α] {s : LAM α} {w : List α}
    {c : Nat} {t u : α} (hr : reprIdleAt s w c t) (hu : w[c + 1]? = some u)
    (interp : α → α → ℚ → α) (cb : Option Nat) :
    reprFwdAt (s.startAnimation interp true cb) w c t u t ∧
    (s.startAnimation interp true cb).offset = s.offset ∧
    (s.startAnimation interp true cb).pendingFrame =
      some (Frame.first false cb) ∧
    (s.startAnimation interp true cb).state = TState.ANIMATING := by
  obtain ⟨hs, hc, hp, hn⟩ := hr
  refine ⟨⟨?_, ?_, hc, hu, ?_, ?_⟩, ?_, ?_, ?_⟩ <;>
    simp [LAM.startAnimation, LAM.panToAnimatingLineSegment, LAM.isAnimating,
      LAM.isPaused, hs, hp, hn, dupLast_concat, reverse_drop_of_getElem hu]

theorem startAnimation_bwd_idleAt [DecidableEq α] {s : LAM α} {w : List α}
    {c : Nat} {t0 t : α} (hr : reprIdleAt s w c t) (h1 : 1 ≤ c)
    (ht0 : w[c - 1]? = some t0) (interp : α → α → ℚ → α) (cb : Option Nat) :
    reprBwdAt (s.startAnimation interp false cb) w c t0 t t ∧
    (s.startAnimation interp false cb).offset = s.offset ∧
    (s.startAnimation interp false cb).pendingFrame =
      some (Frame.first false cb) ∧
    (s.startAnimation interp false cb).state = TState.ANIMATING := by
  obtain ⟨hs, hc, hp, hn⟩ := hr
  have hc1 : c - 1 + 1 = c := by omega
  have htake : w.take c = w.take (c - 1) ++ [t0] := by
    conv_lhs => rw [← hc1]
    rw [take_succ_of_getElem ht0]
  refine ⟨⟨?_, ?_, h1, ht0, hc, ?_, ?_⟩, ?_, ?_, ?_⟩ <;>
    simp [LAM.startAnimation, LAM.panToAnimatingLineSegment, LAM.isAnimating,
      LAM.isPaused, hs, hp, hn, dupLast_concat, htake]

theorem startAnimation_of_paused [DecidableEq α] {s : LAM α}
    (hs : s.state = TState.PAUSED) (d : Bool) (interp : α → α → ℚ → α)
    (cb : Option Nat) :
    (s.startAnimation interp d cb).state = TState.ANIMATING ∧
    (s.startAnimation interp d cb).forward = d ∧
    (s.startAnimation interp d cb).offset = s.offset ∧
    (s.startAnimation interp d cb).prevPath = s.prevPath ∧
    (s.startAnimation interp d cb).nextPath = s.nextPath ∧
    (s.startAnimation interp d cb).pendingFrame =
      some (Frame.first true cb) := by
  refine ⟨?_, ?_, ?_, ?_, ?_, ?_⟩ <;>
    simp [LAM.startAnimation, LAM.panToAnimatingLineSegment, LAM.isAnimating,
      LAM.isPaused, hs]

theorem next_eq_startAnimation [DecidableEq α] {s : LAM α}
    (hs : s.state ≠ TState.ANIMATING) (hn : 1 < s.nextPath.length)
    (interp : α → α → ℚ → α) (cb : Option Nat) :
    s.next interp cb = s.startAnimation interp true cb := by
  simp [LAM.next, LAM.hasNext, isAnimating_false hs, hn]

theorem prev_eq_startAnimation [DecidableEq α] {s : LAM α}
    (hs : s.state ≠ TState.ANIMATING) (hp : 1 < s.prevPath.length)
    (interp : α → α → ℚ → α) (cb : Option Nat) :
    s.prev interp cb = s.startAnimation interp false cb := by
  simp [LAM.prev, LAM.hasPrev, isAnimating_false hs, hp]

/-! ### Characterization of the animation frames -/

theorem updateWaypoint_concat {s : LAM α} {A B : List α} {x a b : α}
    (hs : s.state ≠ TState.IDLE) (hp : s.prevPath = A ++ [x])
    (hn : s.nextPath = B ++ [x]) (hA : A.getLast? = some a)
    (hB : B.getLast? = some b) (interp : α → α → ℚ → α) :
    s.updateWaypoint interp =
      { s with prevPath := A ++ [interp a b s.offset],
               nextPath := B ++ [interp a b s.offset] } := by
  have hA0 : A ≠ [] := by
    intro h; rw [h] at hA; exact nomatch hA
  have hB0 : B ≠ [] := by
    intro h; rw [h] at hB; exact nomatch hB
  simp only [LAM.updateWaypoint, isIdle_false hs, Bool.false_eq_true, if_false,
    hp, hn, getPointOnLine_concat_neg_two _ _ hA0,
    getPointOnLine_concat_neg_two _ _ hB0, hA, hB, setLast_concat]

theorem step_fwd_ge [DecidableEq α] {s : LAM α} (hf : s.forward = true)
    {st ct : ℚ} {rs : Bool} (cb : Option Nat)
    (hge : 1 ≤ (if rs then s.offset else (ct - st) / ANIMATION_TIME_MS))
    (interp : α → α → ℚ → α) :
    LAM.step interp st ct rs cb s = s.finishAnimation true cb := by
  cases rs <;> simp only [Bool.false_eq_true, if_false, if_true] at hge <;>
    simp [LAM.step, hf, hge]

theorem step_bwd_ge [DecidableEq α] {s : LAM α} (hf : s.forward = false)
    {st ct : ℚ} {rs : Bool} (cb : Option Nat)
    (hge : 1 ≤ (if rs then 1 - s.offset else (ct - st) / ANIMATION_TIME_MS))
    (interp : α → α → ℚ → α) :
    LAM.step interp st ct rs cb s = s.finishAnimation true cb := by
  cases rs <;> simp only [Bool.false_eq_true, if_false, if_true] at hge <;>
    simp [LAM.step, hf, hge]

theorem step_fwdAt_lt [DecidableEq α] {s : LAM α} {w : List α} {c : Nat}
    {t u wp : α} (hr : reprFwdAt s w c t u wp) (st ct : ℚ) (rs : Bool)
    (cb : Option Nat)
    (hlt : (if rs then s.offset else (ct - st) / ANIMATION_TIME_MS) < 1)
    (interp : α → α → ℚ → α) :
    LAM.step interp st ct rs cb s =
      { s with
        offset := (if rs then s.offset else (ct - st) / ANIMATION_TIME_MS),
        prevPath := (w.take c ++ [t]) ++
          [interp t u (if rs then s.offset else (ct - st) / ANIMATION_TIME_MS)],
        nextPath := ((w.drop (c + 2)).reverse ++ [u]) ++
          [interp t u (if rs then s.offset else (ct - st) / ANIMATION_TIME_MS)],
        pendingFrame := some (Frame.cont
          (if rs then st - s.offset * ANIMATION_TIME_MS else st) cb) } := by
  obtain ⟨hs, hf, hc, hc1, hp, hn⟩ := hr
  have hup : ∀ q : ℚ, LAM.updateWaypoint interp { s with offset := q } =
      { s with offset := q,
               prevPath := (w.take c ++ [t]) ++ [interp t u q],
               nextPath := ((w.drop (c + 2)).reverse ++ [u]) ++ [interp t u q] } :=
    fun q => updateWaypoint_concat (s := { s with offset := q }) hs hp hn
      (List.getLast?_concat _) (List.getLast?_concat _) interp
  simp only [hf] at hup
  cases rs <;> simp only [Bool.false_eq_true, if_false, if_true] at hlt ⊢ <;>
    rw [LAM.step] <;>
    simp only [hf, if_true, if_false, Bool.false_eq_true, if_neg (not_le.mpr hlt),
      ge_iff_le, hup]

theorem step_bwdAt_lt [DecidableEq α] {s : LAM α} {w : List α} {c : Nat}
    {t u wp : α} (hr : reprBwdAt s w c t u wp) (st ct : ℚ) (rs : Bool)
    (cb : Option Nat)
    (hlt : (if rs then 1 - s.offset else (ct - st) / ANIMATION_TIME_MS) < 1)
    (interp : α → α → ℚ → α) :
    LAM.step interp st ct rs cb s =
      { s with
        offset := 1 - (if rs then 1 - s.offset else (ct - st) / ANIMATION_TIME_MS),
        prevPath := (w.take (c - 1) ++ [t]) ++
          [interp t u (1 - (if rs then 1 - s.offset
            else (ct - st) / ANIMATION_TIME_MS))],
        nextPath := ((w.drop (c + 1)).reverse ++ [u]) ++
          [interp t u (1 - (if rs then 1 - s.offset
            else (ct - st) / ANIMATION_TIME_MS))],
        pendingFrame := some (Frame.cont
          (if rs then st - (1 - s.offset) * ANIMATION_TIME_MS else st) cb) } := by
  obtain ⟨hs, hf, h1, ht, hu, hp, hn⟩ := hr
  have hup : ∀ q : ℚ, LAM.updateWaypoint interp { s with offset := q } =
      { s with offset := q,
               prevPath := (w.take (c - 1) ++ [t]) ++ [interp t u q],
               nextPath := ((w.drop (c + 1)).reverse ++ [u]) ++ [interp t u q] } :=
    fun q => updateWaypoint_concat (s := { s with offset := q }) hs hp hn
      (List.getLast?_concat _) (List.getLast?_concat _) interp
  simp only [hf] at hup
  cases rs <;> simp only [Bool.false_eq_true, if_false, if_true] at hlt ⊢ <;>
    rw [LAM.step] <;>
    simp only [hf, if_true, if_false, Bool.false_eq_true, if_neg (not_le.mpr hlt),
      ge_iff_le, hup]

/-! ### Derived queries under the representation -/

theorem getCurrentIndex_idleAt {s : LAM α} {w : List α} {c : Nat} {t : α}
    (hr : reprIdleAt s w c t) : s.getCurrentIndex = (c : Int) := by
  have h1 := (reprIdleAt_lengths hr).1
  simp [LAM.getCurrentIndex, isIdle_true hr.1, h1]

theorem getCurrentIndex_fwdAt {s : LAM α} {w : List α} {c : Nat} {t u wp : α}
    (hr : reprFwdAt s w c t u wp) : s.getCurrentIndex = (c : Int) + 1 := by
  have h1 := (reprFwdAt_lengths hr).1
  simp [LAM.getCurrentIndex, isIdle_false hr.1, hr.2.1, h1]
  omega

theorem getCurrentIndex_bwdAt {s : LAM α} {w : List α} {c : Nat} {t u wp : α}
    (hr : reprBwdAt s w c t u wp) : s.getCurrentIndex = (c : Int) - 1 := by
  have h1 := (reprBwdAt_lengths hr).1
  simp [LAM.getCurrentIndex, isIdle_false hr.1, hr.2.1, h1]

theorem length_idleAt {s : LAM α} {w : List α} {c : Nat} {t : α}
    (hr : reprIdleAt s w c t) : s.length = (w.length : Int) := by
  have h1 := (reprIdleAt_lengths hr).1
  have h2 := (reprIdleAt_lengths hr).2
  have hlt : c < w.length := reprIdleAt_lt hr
  simp only [LAM.length, h1, h2, isIdle_true hr.1, if_true]
  split <;> omega

theorem length_fwdAt {s : LAM α} {w : List α} {c : Nat} {t u wp : α}
    (hr : reprFwdAt s w c t u wp) : s.length = (w.length : Int) := by
  have h1 := (reprFwdAt_lengths hr).1
  have h2 := (reprFwdAt_lengths hr).2
  have hlt : c + 1 < w.length := reprFwdAt_lt hr
  simp only [LAM.length, h1, h2, isIdle_false hr.1, Bool.false_eq_true, if_false]
  split <;> omega

theorem length_bwdAt {s : LAM α} {w : List α} {c : Nat} {t u wp : α}
    (hr : reprBwdAt s w c t u wp) : s.length = (w.length : Int) := by
  have h1 := (reprBwdAt_lengths hr).1
  have h2 := (reprBwdAt_lengths hr).2
  have hlt : c < w.length := reprBwdAt_lt hr
  simp only [LAM.length, h1, h2, isIdle_false hr.1, Bool.false_eq_true, if_false]
  split <;> omega

/-! ### Running the animation loop to completion -/

theorem tick_FwdRun [DecidableEq α] (interp : α → α → ℚ → α) (τ : ℚ)
    {w : List α} {c : Nat} {u : α} {r : LAM α} (h : FwdRun w c u r) :
    FwdRun w c u (r.tick interp τ) := by
  rcases h with ⟨t, wp, hr⟩ | ⟨hr, hpf⟩
  · rcases hpf : r.pendingFrame with _ | fr
    · simp only [LAM.tick, hpf]
      exact Or.inl ⟨t, wp, hr⟩
    · have hr2 : reprFwdAt { r with pendingFrame := none } w c t u wp := hr
      rcases fr with ⟨rs, cb⟩ | ⟨st, cb⟩
      · simp only [LAM.tick, hpf]
        by_cases hof : (1 : ℚ) ≤
            (if rs then r.offset else (τ - τ) / ANIMATION_TIME_MS)
        · rw [step_fwd_ge hr2.2.1 cb hof interp]
          refine Or.inr ⟨reprIdleAt_finishAnimation_fwd hr2 true cb, ?_⟩
          rw [finishAnimation_fwdAt hr2 true cb]
        · rw [step_fwdAt_lt hr2 τ τ rs cb (not_le.mp hof) interp]
          exact Or.inl ⟨t, _, hr2.1, hr2.2.1, hr2.2.2.1, hr2.2.2.2.1, rfl, rfl⟩
      · simp only [LAM.tick, hpf]
        by_cases hof : (1 : ℚ) ≤
            (if (false : Bool) then r.offset else (τ - st) / ANIMATION_TIME_MS)
        · rw [step_fwd_ge hr2.2.1 cb hof interp]
          refine Or.inr ⟨reprIdleAt_finishAnimation_fwd hr2 true cb, ?_⟩
          rw [finishAnimation_fwdAt hr2 true cb]
        · rw [step_fwdAt_lt hr2 st τ false cb (not_le.mp hof) interp]
          exact Or.inl ⟨t, _, hr2.1, hr2.2.1, hr2.2.2.1, hr2.2.2.2.1, rfl, rfl⟩
  · simp only [LAM.tick, hpf]
    exact Or.inr ⟨hr, hpf⟩

theorem tick_BwdRun [DecidableEq α] (interp : α → α → ℚ → α) (τ : ℚ)
    {w : List α} {c : Nat} {t : α} {r : LAM α} (h : BwdRun w c t r) :
    BwdRun w c t (r.tick interp τ) := by
  rcases h with ⟨u, wp, hr⟩ | ⟨hr, hpf⟩
  · rcases hpf : r.pendingFrame with _ | fr
    · simp only [LAM.tick, hpf]
      exact Or.inl ⟨u, wp, hr⟩
    · have hr2 : reprBwdAt { r with pendingFrame := none } w c t u wp := hr
      rcases fr with ⟨rs, cb⟩ | ⟨st, cb⟩
      · simp only [LAM.tick, hpf]
        by_cases hof : (1 : ℚ) ≤
            (if rs then 1 - r.offset else (τ - τ) / ANIMATION_TIME_MS)
        · rw [step_bwd_ge hr2.2.1 cb hof interp]
          refine Or.inr ⟨reprIdleAt_finishAnimation_bwd hr2 true cb, ?_⟩
          rw [finishAnimation_bwdAt hr2 true cb]
        · rw [step_bwdAt_lt hr2 τ τ rs cb (not_le.mp hof) interp]
          exact Or.inl ⟨u, _, hr2.1, hr2.2.1, hr2.2.2.1, hr2.2.2.2.1,
            hr2.2.2.2.2.1, rfl, rfl⟩
      · simp only [LAM.tick, hpf]
        by_cases hof : (1 : ℚ) ≤
            (if (false : Bool) then 1 - r.offset else (τ - st) / ANIMATION_TIME_MS)
        · rw [step_bwd_ge hr2.2.1 cb hof interp]
          refine Or.inr ⟨reprIdleAt_finishAnimation_bwd hr2 true cb, ?_⟩
          rw [finishAnimation_bwdAt hr2 true cb]
        · rw [step_bwdAt_lt hr2 st τ false cb (not_le.mp hof) interp]
          exact Or.inl ⟨u, _, hr2.1, hr2.2.1, hr2.2.2.1, hr2.2.2.2.1,
            hr2.2.2.2.2.1, rfl, rfl⟩
  · simp only [LAM.tick, hpf]
    exact Or.inr ⟨hr, hpf⟩

theorem ticks_preserve [DecidableEq α] (interp : α → α → ℚ → α)
    (P : LAM α → Prop)
    (hP : ∀ (τ : ℚ) (r : LAM α), P r → P (r.tick interp τ)) :
    ∀ (ts : List ℚ) (r : LAM α), P r → P (r.ticks interp ts) := by
  intro ts
  induction ts with
  | nil => intro r h; exact h
  | cons a ts ih =>
      intro r h
      have he : r.ticks interp (a :: ts) = (r.tick interp a).ticks interp ts := rfl
      rw [he]
      exact ih _ (hP a r h)

theorem tick_first [DecidableEq α] {r : LAM α} {rs : Bool} {cb : Option Nat}
    (hpf : r.pendingFrame = some (Frame.first rs cb))
    (interp : α → α → ℚ → α) (τ : ℚ) :
    r.tick interp τ =
      LAM.step interp τ τ rs cb { r with pendingFrame := none } := by
  simp only [LAM.tick, hpf]

theorem tick_cont [DecidableEq α] {r : LAM α} {st : ℚ} {cb : Option Nat}
    (hpf : r.pendingFrame = some (Frame.cont st cb))
    (interp : α → α → ℚ → α) (τ : ℚ) :
    r.tick interp τ =
      LAM.step interp st τ false cb { r with pendingFrame := none } := by
  simp only [LAM.tick, hpf]

theorem tick_none [DecidableEq α] {r : LAM α} (hpf : r.pendingFrame = none)
    (interp : α → α → ℚ → α) (τ : ℚ) : r.tick interp τ = r := by
  simp only [LAM.tick, hpf]

theorem zero_offset_lt {t0 : ℚ} : ((t0 - t0) / ANIMATION_TIME_MS : ℚ) < 1 := by
  norm_num

theorem full_offset_ge {t0 : ℚ} :
    (1 : ℚ) ≤ (t0 + ANIMATION_TIME_MS - t0) / ANIMATION_TIME_MS := by
  rw [show (t0 + ANIMATION_TIME_MS - t0 : ℚ) = ANIMATION_TIME_MS from by ring,
    div_self (by norm_num [ANIMATION_TIME_MS])]

theorem tick_first_advances_fwd [DecidableEq α] {r0 : LAM α} {w : List α}
    {c : Nat} {t u wp : α} {cb : Option Nat}
    (hfa : reprFwdAt r0 w c t u wp)
    (hpf : r0.pendingFrame = some (Frame.first false cb))
    (interp : α → α → ℚ → α) (τ : ℚ) :
    ∃ wp2, reprFwdAt (r0.tick interp τ) w c t u wp2 ∧
      (r0.tick interp τ).pendingFrame = some (Frame.cont τ cb) := by
  rw [tick_first hpf interp τ]
  have hr2 : reprFwdAt { r0 with pendingFrame := none } w c t u wp := hfa
  rw [step_fwdAt_lt hr2 τ τ false cb (by simp) interp]
  exact ⟨_, ⟨hr2.1, hr2.2.1, hr2.2.2.1, hr2.2.2.2.1, rfl, rfl⟩, rfl⟩

theorem tick_first_advances_bwd [DecidableEq α] {r0 : LAM α} {w : List α}
    {c : Nat} {t u wp : α} {cb : Option Nat}
    (hfa : reprBwdAt r0 w c t u wp)
    (hpf : r0.pendingFrame = some (Frame.first false cb))
    (interp : α → α → ℚ → α) (τ : ℚ) :
    ∃ wp2, reprBwdAt (r0.tick interp τ) w c t u wp2 ∧
      (r0.tick interp τ).pendingFrame = some (Frame.cont τ cb) := by
  rw [tick_first hpf interp τ]
  have hr2 : reprBwdAt { r0 with pendingFrame := none } w c t u wp := hfa
  rw [step_bwdAt_lt hr2 τ τ false cb (by simp) interp]
  exact ⟨_, ⟨hr2.1, hr2.2.1, hr2.2.2.1, hr2.2.2.2.1, hr2.2.2.2.2.1, rfl, rfl⟩,
    rfl⟩

theorem tick_cont_completes_fwd [DecidableEq α] {r1 : LAM α} {w : List α}
    {c : Nat} {t u wp : α} {st : ℚ} {cb : Option Nat}
    (hfa : reprFwdAt r1 w c t u wp)
    (hpf : r1.pendingFrame = some (Frame.cont st cb))
    (interp : α → α → ℚ → α) (τ : ℚ)
    (hge : (1 : ℚ) ≤ (τ - st) / ANIMATION_TIME_MS) :
    (r1.tick interp τ).state = TState.IDLE ∧
    (r1.tick interp τ).getCurrentIndex = (c : Int) + 1 := by
  rw [tick_cont hpf interp τ]
  have hr2 : reprFwdAt { r1 with pendingFrame := none } w c t u wp := hfa
  rw [step_fwd_ge hr2.2.1 cb (by simpa using hge) interp]
  have hfin := reprIdleAt_finishAnimation_fwd hr2 true cb
  refine ⟨hfin.1, ?_⟩
  rw [getCurrentIndex_idleAt hfin]
  push_cast
  ring

theorem tick_cont_completes_bwd [DecidableEq α] {r1 : LAM α} {w : List α}
    {c : Nat} {t u wp : α} {st : ℚ} {cb : Option Nat}
    (hfa : reprBwdAt r1 w c t u wp)
    (hpf : r1.pendingFrame = some (Frame.cont st cb))
    (interp : α → α → ℚ → α) (τ : ℚ)
    (hge : (1 : ℚ) ≤ (τ - st) / ANIMATION_TIME_MS) :
    (r1.tick interp τ).state = TState.IDLE ∧
    (r1.tick interp τ).getCurrentIndex = (c : Int) - 1 := by
  rw [tick_cont hpf interp τ]
  have hr2 : reprBwdAt { r1 with pendingFrame := none } w c t u wp := hfa
  rw [step_bwd_ge hr2.2.1 cb (by simpa using hge) interp]
  have hfin := reprIdleAt_finishAnimation_bwd hr2 true cb
  have h1 : 1 ≤ c := hr2.2.2.1
  refine ⟨hfin.1, ?_⟩
  rw [getCurrentIndex_idleAt hfin]
  omega

/-! ## Claims -/

/-- C1: From an idle engine over a path with the cursor having a next
neighbor, `next()` followed by letting the animation run to natural completion
(any frame schedule; completion is the `finishAnimation(true)` branch at
offset 1, and the engine being idle afterwards witnesses that it occurred)
leaves the engine idle with `getCurrentIndex()` one more than before; the
second conjunct of each half exhibits a two-frame schedule that does complete.
Symmetrically, `prev()` with a previous neighbor ends idle with
`getCurrentIndex()` one less. -/
theorem C1_next_prev_completion [DecidableEq α] (interp : α → α → ℚ → α)
    (s : LAM α) (w : List α) (c : Nat) (hr : reprIdle s w c)
    (cb : Option Nat) (ts : List ℚ) (t0 : ℚ) :
    (c + 1 < w.length →
      ((LAM.ticks interp ts (s.next interp cb)).state = TState.IDLE →
        (LAM.ticks interp ts (s.next interp cb)).getCurrentIndex =
          s.getCurrentIndex + 1) ∧
      ((LAM.tick interp (t0 + ANIMATION_TIME_MS)
          (LAM.tick interp t0 (s.next interp cb))).state = TState.IDLE ∧
       (LAM.tick interp (t0 + ANIMATION_TIME_MS)
          (LAM.tick interp t0 (s.next interp cb))).getCurrentIndex =
          s.getCurrentIndex + 1)) ∧
    (1 ≤ c →
      ((LAM.ticks interp ts (s.prev interp cb)).state = TState.IDLE →
        (LAM.ticks interp ts (s.prev interp cb)).getCurrentIndex =
          s.getCurrentIndex - 1) ∧
      ((LAM.tick interp (t0 + ANIMATION_TIME_MS)
          (LAM.tick interp t0 (s.prev interp cb))).state = TState.IDLE ∧
       (LAM.tick interp (t0 + ANIMATION_TIME_MS)
          (LAM.tick interp t0 (s.prev interp cb))).getCurrentIndex =
          s.getCurrentIndex - 1)) := by
  obtain ⟨t, hr⟩ := hr
  have hidx : s.getCurrentIndex = (c : Int) := getCurrentIndex_idleAt hr
  have hsidle : s.state ≠ TState.ANIMATING := by
    rw [hr.1]; exact fun h => nomatch h
  constructor
  · intro hlt
    have hu : w[c + 1]? = some w[c + 1] := List.getElem?_eq_getElem hlt
    have hnext : s.next interp cb = s.startAnimation interp true cb := by
      refine next_eq_startAnimation hsidle ?_ interp cb
      have := (reprIdleAt_lengths hr).2
      omega
    have hstart := startAnimation_fwd_idleAt hr hu interp cb
    rw [hnext]
    constructor
    · have hQ := ticks_preserve interp (FwdRun w c w[c + 1])
        (fun τ r h => tick_FwdRun interp τ h) ts
        (s.startAnimation interp true cb) (Or.inl ⟨t, t, hstart.1⟩)
      intro hidle
      rcases hQ with ⟨t2, wp2, hfa⟩ | ⟨hri, -⟩
      · exact absurd hidle hfa.1
      · rw [getCurrentIndex_idleAt hri, hidx]
        push_cast
        ring
    · obtain ⟨wp2, hfa2, hpf2⟩ :=
        tick_first_advances_fwd hstart.1 hstart.2.2.1 interp t0
      have hdone := tick_cont_completes_fwd hfa2 hpf2 interp
        (t0 + ANIMATION_TIME_MS) full_offset_ge
      rw [hidx]
      exact hdone
  · intro h1
    have hc1 : c - 1 < w.length := by
      have := reprIdleAt_lt hr
      omega
    have ht0 : w[c - 1]? = some w[c - 1] := List.getElem?_eq_getElem hc1
    have hprev : s.prev interp cb = s.startAnimation interp false cb := by
      refine prev_eq_startAnimation hsidle ?_ interp cb
      have := (reprIdleAt_lengths hr).1
      omega
    have hstart := startAnimation_bwd_idleAt hr h1 ht0 interp cb
    rw [hprev]
    constructor
    · have hQ := ticks_preserve interp (BwdRun w c w[c - 1])
        (fun τ r h => tick_BwdRun interp τ h) ts
        (s.startAnimation interp false cb) (Or.inl ⟨t, t, hstart.1⟩)
      intro hidle
      rcases hQ with ⟨u2, wp2, hfa⟩ | ⟨hri, -⟩
      · exact absurd hidle hfa.1
      · rw [getCurrentIndex_idleAt hri, hidx]
        omega
    · obtain ⟨wp2, hfa2, hpf2⟩ :=
        tick_first_advances_bwd hstart.1 hstart.2.2.1 interp t0
      have hdone := tick_cont_completes_bwd hfa2 hpf2 interp
        (t0 + ANIMATION_TIME_MS) full_offset_ge
      rw [hidx]
      exact hdone

/-- Witness for C1 on the concrete three-waypoint engine with cursor 1. -/
theorem C1_witness :
    ((LAM.tick (fun (a : Int) _ _ => a) (0 + ANIMATION_TIME_MS)
        (LAM.tick (fun (a : Int) _ _ => a) 0
          (LAM.next (fun (a : Int) _ _ => a) none
            ⟨TState.IDLE, 0, true, none, [10, 20], [30, 20],
              ⟨some 0, none, [], 0⟩⟩))).state = TState.IDLE ∧
     (LAM.tick (fun (a : Int) _ _ => a) (0 + ANIMATION_TIME_MS)
        (LAM.tick (fun (a : Int) _ _ => a) 0
          (LAM.next (fun (a : Int) _ _ => a) none
            ⟨TState.IDLE, 0, true, none, [10, 20], [30, 20],
              ⟨some 0, none, [], 0⟩⟩))).getCurrentIndex =
       (⟨TState.IDLE, 0, true, none, [10, 20], [30, 20],
          ⟨some 0, none, [], 0⟩⟩ : LAM Int).getCurrentIndex + 1) ∧
    ((LAM.tick (fun (a : Int) _ _ => a) (0 + ANIMATION_TIME_MS)
        (LAM.tick (fun (a : Int) _ _ => a) 0
          (LAM.prev (fun (a : Int) _ _ => a) none
            ⟨TState.IDLE, 0, true, none, [10, 20], [30, 20],
              ⟨some 0, none, [], 0⟩⟩))).state = TState.IDLE ∧
     (LAM.tick (fun (a : Int) _ _ => a) (0 + ANIMATION_TIME_MS)
        (LAM.tick (fun (a : Int) _ _ => a) 0
          (LAM.prev (fun (a : Int) _ _ => a) none
            ⟨TState.IDLE, 0, true, none, [10, 20], [30, 20],
              ⟨some 0, none, [], 0⟩⟩))).getCurrentIndex =
       (⟨TState.IDLE, 0, true, none, [10, 20], [30, 20],
          ⟨some 0, none, [], 0⟩⟩ : LAM Int).getCurrentIndex - 1) := by
  have h := C1_next_prev_completion (fun (a : Int) _ _ => a)
    ⟨TState.IDLE, 0, true, none, [10, 20], [30, 20], ⟨some 0, none, [], 0⟩⟩
    [10, 20, 30] 1 ⟨20, rfl, rfl, rfl, rfl⟩ none [] 0
  exact ⟨(h.1 (by decide)).2, (h.2 (by decide)).2⟩

theorem removeIdleBehavior_idem (m : MTM α) :
    m.removeIdleBehavior.removeIdleBehavior = m.removeIdleBehavior := by
  simp only [MTM.removeIdleBehavior, MTM.uponMapIdle]
  cases h : m.idleListener <;> simp [List.filter_filter]

theorem updateWaypoint_proj (interp : α → α → ℚ → α) (s : LAM α) :
    (s.updateWaypoint interp).state = s.state ∧
    (s.updateWaypoint interp).offset = s.offset ∧
    (s.updateWaypoint interp).forward = s.forward ∧
    (s.updateWaypoint interp).pendingFrame = s.pendingFrame ∧
    (s.updateWaypoint interp).mtm = s.mtm := by
  unfold LAM.updateWaypoint
  split
  · exact ⟨rfl, rfl, rfl, rfl, rfl⟩
  · split
    · exact ⟨rfl, rfl, rfl, rfl, rfl⟩
    · exact ⟨rfl, rfl, rfl, rfl, rfl⟩

theorem step_resume [DecidableEq α] (interp : α → α → ℚ → α) {s : LAM α}
    (st ct : ℚ) (cb : Option Nat)
    (hlt : (if s.forward = true then s.offset else 1 - s.offset) < 1) :
    (LAM.step interp st ct true cb s).offset = s.offset ∧
    (LAM.step interp st ct true cb s).pendingFrame = some (Frame.cont
      (st - (if s.forward = true then s.offset else 1 - s.offset) *
        ANIMATION_TIME_MS) cb) ∧
    (LAM.step interp st ct true cb s).state = s.state ∧
    (LAM.step interp st ct true cb s).forward = s.forward := by
  cases hf : s.forward with
  | true =>
    simp only [hf, if_true] at hlt ⊢
    rw [LAM.step]
    simp [hf, if_neg (not_le.mpr hlt), updateWaypoint_proj]
  | false =>
    simp only [hf, Bool.false_eq_true, if_false] at hlt ⊢
    have h0 : ¬ s.offset ≤ 0 := by
      intro h
      linarith
    rw [LAM.step]
    simp [hf, h0, updateWaypoint_proj, sub_sub_cancel]

/-- C10: `pause()` is idempotent, and on an idle engine it is the identity on
the whole state. -/
theorem C10_pause_idempotent [DecidableEq α] (s : LAM α) :
    s.pause.pause = s.pause ∧ (s.state = TState.IDLE → s.pause = s) := by
  constructor
  · by_cases h : s.state = TState.IDLE
    · simp [LAM.pause, isIdle_true h]
    · simp [LAM.pause, LAM.cancelAnimation, LAM.isIdle, h,
        removeIdleBehavior_idem]
  · intro h
    simp [LAM.pause, isIdle_true h]

/-- Witness for C10 at a concrete idle engine. -/
theorem C10_witness :
    (⟨TState.IDLE, 0, true, none, [5], [5], ⟨none, none, [], 0⟩⟩ :
      LAM Int).pause =
    ⟨TState.IDLE, 0, true, none, [5], [5], ⟨none, none, [], 0⟩⟩ :=
  (C10_pause_idempotent
    ⟨TState.IDLE, 0, true, none, [5], [5], ⟨none, none, [], 0⟩⟩).2 rfl

/-- C6: from a pause at fractional offset `o`, calling `next()`/`prev()` in
the same direction resumes at exactly `o`: the buffers are untouched (no
transient point is re-pushed), the stored offset is unchanged, the scheduled
frame carries the resume flag, the first resumed frame leaves the offset at
`o`, and it synthesizes the virtual start time
`τ - o·ANIMATION_TIME_MS` (forward) resp. `τ - (1-o)·ANIMATION_TIME_MS`
(backward) — never restarting the edge at offset 0. -/
theorem C6_resume_same_direction [DecidableEq α] (interp : α → α → ℚ → α)
    (s : LAM α) (cb : Option Nat) (τ : ℚ) (hs : s.state = TState.PAUSED)
    (h0 : 0 < s.offset) (h1 : s.offset < 1) :
    (s.forward = true → 1 < s.nextPath.length →
      (s.next interp cb).offset = s.offset ∧
      (s.next interp cb).prevPath = s.prevPath ∧
      (s.next interp cb).nextPath = s.nextPath ∧
      (s.next interp cb).pendingFrame = some (Frame.first true cb) ∧
      ((s.next interp cb).tick interp τ).offset = s.offset ∧
      ((s.next interp cb).tick interp τ).pendingFrame =
        some (Frame.cont (τ - s.offset * ANIMATION_TIME_MS) cb)) ∧
    (s.forward = false → 1 < s.prevPath.length →
      (s.prev interp cb).offset = s.offset ∧
      (s.prev interp cb).prevPath = s.prevPath ∧
      (s.prev interp cb).nextPath = s.nextPath ∧
      (s.prev interp cb).pendingFrame = some (Frame.first true cb) ∧
      ((s.prev interp cb).tick interp τ).offset = s.offset ∧
      ((s.prev interp cb).tick interp τ).pendingFrame =
        some (Frame.cont (τ - (1 - s.offset) * ANIMATION_TIME_MS) cb)) := by
  have hsne : s.state ≠ TState.ANIMATING := by
    rw [hs]; exact fun h => nomatch h
  constructor
  · intro hf hlen
    have hne : s.next interp cb = s.startAnimation interp true cb :=
      next_eq_startAnimation hsne hlen interp cb
    have hsa := startAnimation_of_paused hs true interp cb
    have hfwd : ({ s.startAnimation interp true cb with pendingFrame := none } :
        LAM α).forward = true := hsa.2.1
    have hoff : ({ s.startAnimation interp true cb with pendingFrame := none } :
        LAM α).offset = s.offset := hsa.2.2.1
    have hlt : (if ({ s.startAnimation interp true cb with
        pendingFrame := none } : LAM α).forward = true then
        ({ s.startAnimation interp true cb with pendingFrame := none } :
          LAM α).offset
        else 1 - ({ s.startAnimation interp true cb with
          pendingFrame := none } : LAM α).offset) < 1 := by
      rw [hfwd, if_pos rfl, hoff]; exact h1
    have hstep := step_resume interp τ τ cb hlt
    rw [hne, tick_first hsa.2.2.2.2.2 interp τ]
    refine ⟨hsa.2.2.1, hsa.2.2.2.1, hsa.2.2.2.2.1, hsa.2.2.2.2.2, ?_, ?_⟩
    · rw [hstep.1, hoff]
    · rw [hstep.2.1, hfwd, if_pos rfl, hoff]
  · intro hf hlen
    have hne : s.prev interp cb = s.startAnimation interp false cb :=
      prev_eq_startAnimation hsne hlen interp cb
    have hsa := startAnimation_of_paused hs false interp cb
    have hfwd : ({ s.startAnimation interp false cb with pendingFrame := none } :
        LAM α).forward = false := hsa.2.1
    have hoff : ({ s.startAnimation interp false cb with pendingFrame := none } :
        LAM α).offset = s.offset := hsa.2.2.1
    have hlt : (if ({ s.startAnimation interp false cb with
        pendingFrame := none } : LAM α).forward = true then
        ({ s.startAnimation interp false cb with pendingFrame := none } :
          LAM α).offset
        else 1 - ({ s.startAnimation interp false cb with
          pendingFrame := none } : LAM α).offset) < 1 := by
      rw [hfwd]
      simp only [Bool.false_eq_true, if_false, hoff]
      linarith
    have hstep := step_resume interp τ τ cb hlt
    rw [hne, tick_first hsa.2.2.2.2.2 interp τ]
    refine ⟨hsa.2.2.1, hsa.2.2.2.1, hsa.2.2.2.2.1, hsa.2.2.2.2.2, ?_, ?_⟩
    · rw [hstep.1, hoff]
    · rw [hstep.2.1, hfwd]
      simp only [Bool.false_eq_true, if_false, hoff, hsa.2.2.1]

/-- Witness for C6 at a concrete engine paused forward at offset 2/5. -/
theorem C6_witness :
    ((⟨TState.PAUSED, mkRat 2 5, true, none, [10, 10], [30, 20, 10],
        ⟨some 0, none, [], 0⟩⟩ : LAM Int).next (fun a _ _ => a) none).offset =
      mkRat 2 5 ∧
    ((⟨TState.PAUSED, mkRat 2 5, true, none, [10, 10], [30, 20, 10],
        ⟨some 0, none, [], 0⟩⟩ : LAM Int).next (fun a _ _ => a) none).prevPath =
      [10, 10] ∧
    ((⟨TState.PAUSED, mkRat 2 5, true, none, [10, 10], [30, 20, 10],
        ⟨some 0, none, [], 0⟩⟩ : LAM Int).next (fun a _ _ => a) none).nextPath =
      [30, 20, 10] ∧
    ((⟨TState.PAUSED, mkRat 2 5, true, none, [10, 10], [30, 20, 10],
        ⟨some 0, none, [], 0⟩⟩ : LAM Int).next (fun a _ _ => a) none).pendingFrame =
      some (Frame.first true none) ∧
    (((⟨TState.PAUSED, mkRat 2 5, true, none, [10, 10], [30, 20, 10],
        ⟨some 0, none, [], 0⟩⟩ : LAM Int).next (fun a _ _ => a) none).tick
        (fun a _ _ => a) 7).offset = mkRat 2 5 ∧
    (((⟨TState.PAUSED, mkRat 2 5, true, none, [10, 10], [30, 20, 10],
        ⟨some 0, none, [], 0⟩⟩ : LAM Int).next (fun a _ _ => a) none).tick
        (fun a _ _ => a) 7).pendingFrame =
      some (Frame.cont (7 - mkRat 2 5 * ANIMATION_TIME_MS) none) :=
  (C6_resume_same_direction (fun a _ _ => a)
    ⟨TState.PAUSED, mkRat 2 5, true, none, [10, 10], [30, 20, 10],
      ⟨some 0, none, [], 0⟩⟩ none 7 rfl (by decide) (by decide)).1
    rfl (by decide)

/-- From a pause, `next()`/`prev()` in the opposite direction switches the
direction and resumes the same edge from the stored offset: the buffers and
the offset are untouched, the scheduled frame carries the resume flag, and the
first frame keeps the stored offset. -/
theorem paused_switch_resumes [DecidableEq α]
    (interp : α → α → ℚ → α) (s : LAM α) (cb : Option Nat) (τ : ℚ)
    (hs : s.state = TState.PAUSED) (h0 : 0 < s.offset) (h1 : s.offset < 1) :
    (s.forward = true → 1 < s.prevPath.length →
      (s.prev interp cb).state = TState.ANIMATING ∧
      (s.prev interp cb).getHeadingOfAnimation = -1 ∧
      (s.prev interp cb).offset = s.offset ∧
      (s.prev interp cb).prevPath = s.prevPath ∧
      (s.prev interp cb).nextPath = s.nextPath ∧
      (s.prev interp cb).pendingFrame = some (Frame.first true cb) ∧
      ((s.prev interp cb).tick interp τ).offset = s.offset) ∧
    (s.forward = false → 1 < s.nextPath.length →
      (s.next interp cb).state = TState.ANIMATING ∧
      (s.next interp cb).getHeadingOfAnimation = 1 ∧
      (s.next interp cb).offset = s.offset ∧
      (s.next interp cb).prevPath = s.prevPath ∧
      (s.next interp cb).nextPath = s.nextPath ∧
      (s.next interp cb).pendingFrame = some (Frame.first true cb) ∧
      ((s.next interp cb).tick interp τ).offset = s.offset) := by
  have hsne : s.state ≠ TState.ANIMATING := by
    rw [hs]; exact fun h => nomatch h
  constructor
  · intro hf hlen
    have hne : s.prev interp cb = s.startAnimation interp false cb :=
      prev_eq_startAnimation hsne hlen interp cb
    have hsa := startAnimation_of_paused hs false interp cb
    have hfwd : ({ s.startAnimation interp false cb with pendingFrame := none } :
        LAM α).forward = false := hsa.2.1
    have hoff : ({ s.startAnimation interp false cb with pendingFrame := none } :
        LAM α).offset = s.offset := hsa.2.2.1
    have hlt : (if ({ s.startAnimation interp false cb with
        pendingFrame := none } : LAM α).forward = true then
        ({ s.startAnimation interp false cb with pendingFrame := none } :
          LAM α).offset
        else 1 - ({ s.startAnimation interp false cb with
          pendingFrame := none } : LAM α).offset) < 1 := by
      rw [hfwd]
      simp only [Bool.false_eq_true, if_false, hoff]
      linarith
    have hstep := step_resume interp τ τ cb hlt
    rw [hne, tick_first hsa.2.2.2.2.2 interp τ]
    refine ⟨hsa.1, ?_, hsa.2.2.1, hsa.2.2.2.1, hsa.2.2.2.2.1,
      hsa.2.2.2.2.2, ?_⟩
    · simp [LAM.getHeadingOfAnimation, LAM.isIdle, hsa.1, hsa.2.1]
    · rw [hstep.1, hoff]
  · intro hf hlen
    have hne : s.next interp cb = s.startAnimation interp true cb :=
      next_eq_startAnimation hsne hlen interp cb
    have hsa := startAnimation_of_paused hs true interp cb
    have hfwd : ({ s.startAnimation interp true cb with pendingFrame := none } :
        LAM α).forward = true := hsa.2.1
    have hoff : ({ s.startAnimation interp true cb with pendingFrame := none } :
        LAM α).offset = s.offset := hsa.2.2.1
    have hlt : (if ({ s.startAnimation interp true cb with
        pendingFrame := none } : LAM α).forward = true then
        ({ s.startAnimation interp true cb with pendingFrame := none } :
          LAM α).offset
        else 1 - ({ s.startAnimation interp true cb with
          pendingFrame := none } : LAM α).offset) < 1 := by
      rw [hfwd, if_pos rfl, hoff]; exact h1
    have hstep := step_resume interp τ τ cb hlt
    rw [hne, tick_first hsa.2.2.2.2.2 interp τ]
    refine ⟨hsa.1, ?_, hsa.2.2.1, hsa.2.2.2.1, hsa.2.2.2.2.1,
      hsa.2.2.2.2.2, ?_⟩
    · simp [LAM.getHeadingOfAnimation, LAM.isIdle, hsa.1, hsa.2.1]
    · rw [hstep.1, hoff]

/-- C3 (amended): from `Paused(dir, offset)`, calling `next()`/`prev()` in the
opposite direction does not finish the previous partial animation and does not
start a fresh animation from the cursor; instead the engine switches the
direction and resumes the same edge from the stored offset: the state becomes
`ANIMATING` with the new heading (-1 for `prev`, 1 for `next`), the buffers
and the stored offset are untouched, the scheduled frame carries the resume
flag, and the first frame keeps the offset at the stored value. -/
theorem C3_opposite_direction_resumes [DecidableEq α]
    (interp : α → α → ℚ → α) (s : LAM α) (cb : Option Nat) (τ : ℚ)
    (hs : s.state = TState.PAUSED) (h0 : 0 < s.offset) (h1 : s.offset < 1) :
    (s.forward = true → 1 < s.prevPath.length →
      (s.prev interp cb).state = TState.ANIMATING ∧
      (s.prev interp cb).getHeadingOfAnimation = -1 ∧
      (s.prev interp cb).offset = s.offset ∧
      (s.prev interp cb).prevPath = s.prevPath ∧
      (s.prev interp cb).nextPath = s.nextPath ∧
      (s.prev interp cb).pendingFrame = some (Frame.first true cb) ∧
      ((s.prev interp cb).tick interp τ).offset = s.offset) ∧
    (s.forward = false → 1 < s.nextPath.length →
      (s.next interp cb).state = TState.ANIMATING ∧
      (s.next interp cb).getHeadingOfAnimation = 1 ∧
      (s.next interp cb).offset = s.offset ∧
      (s.next interp cb).prevPath = s.prevPath ∧
      (s.next interp cb).nextPath = s.nextPath ∧
      (s.next interp cb).pendingFrame = some (Frame.first true cb) ∧
      ((s.next interp cb).tick interp τ).offset = s.offset) :=
  paused_switch_resumes interp s cb τ hs h0 h1

/-- Counterexample for C3 as stated: an engine paused forward at offset 2/5
over the path `[10, 20, 30]` (cursor 0, transient tail already interpolated),
on `prev()`, does not finish the forward animation abruptly and does not start
a fresh backward animation from the new cursor: both buffers are left exactly
as they were (no transient point is popped or pushed), the stored offset 2/5
is kept, the scheduled frame carries the resume flag, and the first frame
after `prev()` continues from offset 2/5. -/
theorem C3_counterexample :
    ((⟨TState.PAUSED, mkRat 2 5, true, none, [10, 10], [30, 20, 10],
        ⟨some 0, none, [], 0⟩⟩ : LAM Int).prev (fun a _ _ => a) none).state =
      TState.ANIMATING ∧
    ((⟨TState.PAUSED, mkRat 2 5, true, none, [10, 10], [30, 20, 10],
        ⟨some 0, none, [], 0⟩⟩ : LAM Int).prev (fun a _ _ => a) none).forward =
      false ∧
    ((⟨TState.PAUSED, mkRat 2 5, true, none, [10, 10], [30, 20, 10],
        ⟨some 0, none, [], 0⟩⟩ : LAM Int).prev (fun a _ _ => a)
        none).getHeadingOfAnimation = -1 ∧
    ((⟨TState.PAUSED, mkRat 2 5, true, none, [10, 10], [30, 20, 10],
        ⟨some 0, none, [], 0⟩⟩ : LAM Int).prev (fun a _ _ => a)
        none).pendingFrame = some (Frame.first true none) ∧
    ((⟨TState.PAUSED, mkRat 2 5, true, none, [10, 10], [30, 20, 10],
        ⟨some 0, none, [], 0⟩⟩ : LAM Int).prev (fun a _ _ => a) none).prevPath =
      [10, 10] ∧
    ((⟨TState.PAUSED, mkRat 2 5, true, none, [10, 10], [30, 20, 10],
        ⟨some 0, none, [], 0⟩⟩ : LAM Int).prev (fun a _ _ => a) none).nextPath =
      [30, 20, 10] ∧
    ((⟨TState.PAUSED, mkRat 2 5, true, none, [10, 10], [30, 20, 10],
        ⟨some 0, none, [], 0⟩⟩ : LAM Int).prev (fun a _ _ => a) none).offset =
      mkRat 2 5 ∧
    (((⟨TState.PAUSED, mkRat 2 5, true, none, [10, 10], [30, 20, 10],
        ⟨some 0, none, [], 0⟩⟩ : LAM Int).prev (fun a _ _ => a) none).tick
        (fun a _ _ => a) 500).offset = mkRat 2 5 := by
  have hs : (⟨TState.PAUSED, mkRat 2 5, true, none, [10, 10], [30, 20, 10],
      ⟨some 0, none, [], 0⟩⟩ : LAM Int).state = TState.PAUSED := rfl
  have h0 : (0 : ℚ) <
      (⟨TState.PAUSED, mkRat 2 5, true, none, [10, 10], [30, 20, 10],
        ⟨some 0, none, [], 0⟩⟩ : LAM Int).offset := by decide
  have h1 : (⟨TState.PAUSED, mkRat 2 5, true, none, [10, 10], [30, 20, 10],
      ⟨some 0, none, [], 0⟩⟩ : LAM Int).offset < 1 := by decide
  have h := (paused_switch_resumes (fun a _ _ => a)
    ⟨TState.PAUSED, mkRat 2 5, true, none, [10, 10], [30, 20, 10],
      ⟨some 0, none, [], 0⟩⟩ none 500 hs h0 h1).1 rfl (by decide)
  exact ⟨h.1, by decide, h.2.1, h.2.2.2.2.2.1, h.2.2.2.1, h.2.2.2.2.1,
    h.2.2.1, h.2.2.2.2.2.2⟩

/-- Witness for the amended C3 at a concrete engine paused forward at
offset 2/5. -/
theorem C3_witness :
    ((⟨TState.PAUSED, mkRat 2 5, true, none, [10, 10], [30, 20, 10],
        ⟨some 0, none, [], 0⟩⟩ : LAM Int).prev (fun a _ _ => a) none).state =
      TState.ANIMATING ∧
    ((⟨TState.PAUSED, mkRat 2 5, true, none, [10, 10], [30, 20, 10],
        ⟨some 0, none, [], 0⟩⟩ : LAM Int).prev (fun a _ _ => a)
        none).getHeadingOfAnimation = -1 ∧
    ((⟨TState.PAUSED, mkRat 2 5, true, none, [10, 10], [30, 20, 10],
        ⟨some 0, none, [], 0⟩⟩ : LAM Int).prev (fun a _ _ => a) none).offset =
      mkRat 2 5 ∧
    ((⟨TState.PAUSED, mkRat 2 5, true, none, [10, 10], [30, 20, 10],
        ⟨some 0, none, [], 0⟩⟩ : LAM Int).prev (fun a _ _ => a) none).prevPath =
      [10, 10] ∧
    ((⟨TState.PAUSED, mkRat 2 5, true, none, [10, 10], [30, 20, 10],
        ⟨some 0, none, [], 0⟩⟩ : LAM Int).prev (fun a _ _ => a) none).nextPath =
      [30, 20, 10] ∧
    ((⟨TState.PAUSED, mkRat 2 5, true, none, [10, 10], [30, 20, 10],
        ⟨some 0, none, [], 0⟩⟩ : LAM Int).prev (fun a _ _ => a)
        none).pendingFrame = some (Frame.first true none) ∧
    (((⟨TState.PAUSED, mkRat 2 5, true, none, [10, 10], [30, 20, 10],
        ⟨some 0, none, [], 0⟩⟩ : LAM Int).prev (fun a _ _ => a) none).tick
        (fun a _ _ => a) 500).offset = mkRat 2 5 :=
  (C3_opposite_direction_resumes (fun a _ _ => a)
    ⟨TState.PAUSED, mkRat 2 5, true, none, [10, 10], [30, 20, 10],
      ⟨some 0, none, [], 0⟩⟩ none 500 rfl (by decide) (by decide)).1
    rfl (by decide)

/-! ### The coordinator invariant -/

theorem active_eq_nil_of_inv {m : MTM α} (h : MTM.Inv m) :
    (match m.idleListener with
      | some k => m.active.filter (fun x => x.1 ≠ k)
      | none => m.active) = [] := by
  cases hIL : m.idleListener with
  | none =>
    cases hA : m.active with
    | nil => rfl
    | cons a rest =>
      have := (h.2 a (by rw [hA]; exact List.mem_cons_self a rest)).1
      rw [hIL] at this
      exact nomatch this
  | some k =>
    simp only []
    rw [List.filter_eq_nil_iff]
    intro a ha
    have := (h.2 a ha).1
    rw [hIL] at this
    simp only [Option.some.injEq] at this
    simp [this]

theorem uponMapIdle_none_eq {m : MTM α} (h : MTM.Inv m) :
    m.uponMapIdle none = { m with active := [] } := by
  unfold MTM.uponMapIdle
  rw [active_eq_nil_of_inv h]

theorem uponMapIdle_some_eq {m : MTM α} (h : MTM.Inv m) (hdl : Handler α) :
    m.uponMapIdle (some hdl) =
      { m with active := [(m.fresh, hdl)], idleListener := some m.fresh,
               fresh := m.fresh + 1 } := by
  unfold MTM.uponMapIdle
  rw [active_eq_nil_of_inv h]
  rfl

theorem Inv_cleared (m : MTM α) : MTM.Inv { m with active := [] } :=
  ⟨by simp, by simp⟩

theorem Inv_of_freshShape {m r : MTM α} (hs : FreshShape m r) : MTM.Inv r := by
  rcases hs with hs | ⟨hd, ha, hi, hf⟩
  · exact ⟨by simp [hs], by simp [hs]⟩
  · refine ⟨by simp [ha], ?_⟩
    intro x hx
    rw [ha] at hx
    simp only [List.mem_singleton] at hx
    subst hx
    exact ⟨hi.symm, hf⟩

theorem cancel_of_freshShape {m r : MTM α} (h : MTM.Inv m)
    (hs : FreshShape m r) :
    ∀ x ∈ m.active, x.1 ∉ (r.active.map Prod.fst) := by
  intro x hx
  have hlt := (h.2 x hx).2
  rcases hs with hs | ⟨hd, ha, hi, hf⟩
  · simp [hs]
  · simp only [ha, List.map_cons, List.map_nil, List.mem_singleton]
    omega

theorem freshShape_removeIdleBehavior {m : MTM α} (h : MTM.Inv m) :
    FreshShape m m.removeIdleBehavior := by
  rw [show m.removeIdleBehavior = { m with active := [] } from
    uponMapIdle_none_eq h]
  exact Or.inl rfl

theorem freshShape_panTo [DecidableEq α] {m : MTM α} (h : MTM.Inv m)
    (loc : Option α) (cb : Option Nat) :
    FreshShape m (m.panTo loc cb).1 := by
  unfold MTM.panTo
  rw [show m.removeIdleBehavior = { m with active := [] } from
    uponMapIdle_none_eq h]
  dsimp only
  split
  · split
    · exact Or.inl rfl
    · rcases cb with _ | c
      · left
        simp only [Option.map_none']
        rw [uponMapIdle_none_eq (Inv_cleared m)]
      · right
        simp only [Option.map_some']
        rw [uponMapIdle_some_eq (Inv_cleared m) (Handler.cb c)]
        exact ⟨Handler.cb c, rfl, rfl, Nat.lt_succ_self _⟩
  · exact Or.inl rfl

theorem fitBounds_no_surface [DecidableEq α] {m : MTM α}
    (hc : m.center = none) (locations : List (Option α)) (ptl : Bool)
    (cb : Option Nat) : m.fitBounds locations ptl cb = (m, []) := by
  unfold MTM.fitBounds
  rw [if_pos hc]

theorem freshShape_fitBounds [DecidableEq α] {m : MTM α} (h : MTM.Inv m)
    (hc : m.center ≠ none) (locations : List (Option α)) (ptl : Bool)
    (cb : Option Nat) : FreshShape m (m.fitBounds locations ptl cb).1 := by
  unfold MTM.fitBounds
  rw [if_neg hc]
  rw [show m.removeIdleBehavior = { m with active := [] } from
    uponMapIdle_none_eq h]
  dsimp only
  split
  · split
    · right
      rw [uponMapIdle_some_eq (Inv_cleared m)]
      exact ⟨_, rfl, rfl, Nat.lt_succ_self _⟩
    · rcases cb with _ | c
      · left
        simp only [Option.map_none']
        rw [uponMapIdle_none_eq (Inv_cleared m)]
      · right
        simp only [Option.map_some']
        rw [uponMapIdle_some_eq (Inv_cleared m) (Handler.cb c)]
        exact ⟨Handler.cb c, rfl, rfl, Nat.lt_succ_self _⟩
  · exact freshShape_panTo (Inv_cleared m) _ _

theorem fireIdle_inv [DecidableEq α] {m : MTM α} (h : MTM.Inv m) :
    MTM.Inv (m.fireIdle).1 := by
  unfold MTM.fireIdle
  split
  · exact h
  · rename_i k hd rest heq
    have hlen := h.1
    rw [heq] at hlen
    simp only [List.length_cons] at hlen
    have hrest : rest = [] := by
      cases rest with
      | nil => rfl
      | cons b bs => simp at hlen
    subst hrest
    dsimp only
    split
    · exact Inv_cleared m
    · exact Inv_of_freshShape (freshShape_panTo (Inv_cleared m) _ _)

/-- C4 (amended): under the coordinator invariant — at most one outstanding
settle-subscription, recorded in `_idleListener`, with handle below the fresh
counter — every `panTo`, `fitBounds`, `removeIdleBehavior` and settle-event
firing preserves the invariant; `panTo` and `removeIdleBehavior` always cancel
every previously outstanding subscription, and `fitBounds` does so whenever a
rendering surface is attached; with no surface attached, however, `fitBounds`
returns without touching the coordinator at all, leaving the previous
subscription outstanding. -/
theorem C4_single_pending_subscription [DecidableEq α] (m : MTM α)
    (hInv : MTM.Inv m) (loc : Option α) (cb cb2 : Option Nat)
    (locations : List (Option α)) (ptl : Bool) :
    (MTM.Inv (m.panTo loc cb).1 ∧ MTM.Inv (m.fitBounds locations ptl cb2).1 ∧
     MTM.Inv m.removeIdleBehavior ∧ MTM.Inv (m.fireIdle).1) ∧
    (∀ x ∈ m.active,
      x.1 ∉ ((m.panTo loc cb).1.active.map Prod.fst) ∧
      x.1 ∉ (m.removeIdleBehavior.active.map Prod.fst) ∧
      (m.center ≠ none →
        x.1 ∉ ((m.fitBounds locations ptl cb2).1.active.map Prod.fst))) ∧
    (m.center = none → m.fitBounds locations ptl cb2 = (m, [])) := by
  refine ⟨⟨Inv_of_freshShape (freshShape_panTo hInv loc cb), ?_,
    Inv_of_freshShape (freshShape_removeIdleBehavior hInv),
    fireIdle_inv hInv⟩, ?_, fun hc => fitBounds_no_surface hc locations ptl cb2⟩
  · by_cases hc : m.center = none
    · rw [fitBounds_no_surface hc locations ptl cb2]
      exact hInv
    · exact Inv_of_freshShape (freshShape_fitBounds hInv hc locations ptl cb2)
  · intro x hx
    exact ⟨cancel_of_freshShape hInv (freshShape_panTo hInv loc cb) x hx,
      cancel_of_freshShape hInv (freshShape_removeIdleBehavior hInv) x hx,
      fun hc => cancel_of_freshShape hInv
        (freshShape_fitBounds hInv hc locations ptl cb2) x hx⟩

/-- Counterexample for C4 as stated: a coordinator that installed a
subscription through `panTo` and then had its map detached.  The subsequent
`fitBounds` call returns immediately without cancelling the previously pending
subscription, which stays outstanding. -/
theorem C4_counterexample :
    ((((MTM.init (some 5) : MTM Int)).panTo (some 3) (some 7)).1.setMap
        none).active = [(0, Handler.cb 7)] ∧
    ((((MTM.init (some 5) : MTM Int)).panTo (some 3)
        (some 7)).1.setMap none).fitBounds [some 9] true (some 8) =
      (((((MTM.init (some 5) : MTM Int)).panTo (some 3) (some 7)).1.setMap
        none), []) ∧
    (0, Handler.cb 7) ∈
      (((((MTM.init (some 5) : MTM Int)).panTo (some 3) (some 7)).1.setMap
          none).fitBounds [some 9] true (some 8)).1.active := by
  decide

/-- Witness for the amended C4 at a concrete coordinator with one outstanding
subscription. -/
theorem C4_witness :
    MTM.Inv ((⟨some 5, some 0, [(0, Handler.cb 7)], 1⟩ :
      MTM Int).panTo (some 3) (some 8)).1 ∧
    (0 : Nat) ∉ (((⟨some 5, some 0, [(0, Handler.cb 7)], 1⟩ :
      MTM Int).panTo (some 3) (some 8)).1.active.map Prod.fst) := by
  have hInv : MTM.Inv (⟨some 5, some 0, [(0, Handler.cb 7)], 1⟩ : MTM Int) := by
    refine ⟨by decide, ?_⟩
    intro x hx
    simp only [List.mem_singleton] at hx
    subst hx
    exact ⟨rfl, by decide⟩
  have h := C4_single_pending_subscription
    (⟨some 5, some 0, [(0, Handler.cb 7)], 1⟩ : MTM Int) hInv
    (some 3) (some 8) none [] true
  exact ⟨h.1.1, (h.2.1 (0, Handler.cb 7) (by decide)).1⟩

/-- C7: evaluation of `fitBounds` at the failing input
`[p, p, invalid]` (all valid points coincide, so the region has zero extent):
the code nevertheless issues the bounds-fit camera command (because the
invalid trailing entry makes `location.equals(lastLocation)` false for every
scanned point) and installs a pan to the invalid entry, instead of degrading
to `panTo` of the last valid point.  For contrast, on `[p, p]` the call does
degrade to the pan. -/
theorem C7_fitBounds_zero_extent_eval :
    ((MTM.init (some (5 : Int))).fitBounds [some 3, some 3, none] true
      (some 1)).2 = [Ev.fitCmd [3, 3]] ∧
    ((MTM.init (some (5 : Int))).fitBounds [some 3, some 3, none] true
      (some 1)).1.active = [(0, Handler.panThen none (some 1))] ∧
    ((MTM.init (some (5 : Int))).fitBounds [some 3, some 3] true
      (some 1)).2 = [Ev.panCmd 3] ∧
    ((MTM.init (some (3 : Int))).fitBounds [some 3, some 3] true
      (some 1)).2 = [Ev.fired 1] := by
  decide

/-! ### Splice algebra: how `insertIdx`, `eraseIdx` and `set` interact with
`reverse`, `append`, `take` and `drop` -/

theorem rev_eraseIdx (l : List α) (j : Nat) (h : j < l.length) :
    l.reverse.eraseIdx j = (l.eraseIdx (l.length - 1 - j)).reverse := by
  have h1 : l.length - 1 - j + 1 = l.length - j := by omega
  have h2 : l.length - 1 - j = l.length - (j + 1) := by omega
  rw [List.eraseIdx_eq_take_drop_succ, List.eraseIdx_eq_take_drop_succ,
      List.reverse_append, List.take_reverse, List.drop_reverse, h1, h2]

theorem rev_insertIdx (l : List α) (j : Nat) (x : α) (h : j ≤ l.length) :
    l.reverse.insertIdx j x = (l.insertIdx (l.length - j) x).reverse := by
  rw [insertIdx_eq_take_cons_drop _ _ _ (by simpa using h),
      insertIdx_eq_take_cons_drop _ _ _ (by omega),
      List.reverse_append, List.take_reverse, List.drop_reverse]
  simp [List.reverse_cons, List.append_assoc]

theorem rev_set (l : List α) (j : Nat) (x : α) (h : j < l.length) :
    l.reverse.set j x = (l.set (l.length - 1 - j) x).reverse := by
  have h1 : l.length - 1 - j + 1 = l.length - j := by omega
  have h2 : l.length - 1 - j = l.length - (j + 1) := by omega
  rw [List.set_eq_take_cons_drop x (by simpa using h),
      List.set_eq_take_cons_drop x (by omega),
      List.reverse_append, List.take_reverse, List.drop_reverse, h1, h2]
  simp [List.reverse_cons, List.append_assoc]

theorem eraseIdx_append_left (A B : List α) (j : Nat) (h : j < A.length) :
    (A ++ B).eraseIdx j = A.eraseIdx j ++ B := by
  have h1 : j - A.length = 0 := by omega
  have h2 : j + 1 - A.length = 0 := by omega
  rw [List.eraseIdx_eq_take_drop_succ, List.eraseIdx_eq_take_drop_succ,
      List.take_append_eq_append_take, List.drop_append_eq_append_drop, h1, h2]
  simp [List.append_assoc]

theorem insertIdx_append_left (A B : List α) (j : Nat) (x : α)
    (h : j ≤ A.length) :
    (A ++ B).insertIdx j x = A.insertIdx j x ++ B := by
  have h1 : j - A.length = 0 := by omega
  rw [insertIdx_eq_take_cons_drop _ _ _ (by simp; omega),
      insertIdx_eq_take_cons_drop _ _ _ h,
      List.take_append_eq_append_take, List.drop_append_eq_append_drop, h1]
  simp [List.append_assoc]

theorem set_append_left (A B : List α) (j : Nat) (x : α) (h : j < A.length) :
    (A ++ B).set j x = A.set j x ++ B := by
  have h1 : j - A.length = 0 := by omega
  have h2 : j + 1 - A.length = 0 := by omega
  rw [List.set_eq_take_cons_drop x (by simp; omega),
      List.set_eq_take_cons_drop x h,
      List.take_append_eq_append_take, List.drop_append_eq_append_drop, h1, h2]
  simp [List.append_assoc]

/-! ### Characterization of the editing operations on an idle engine -/

theorem setCurrentIndex_idle [DecidableEq α] {s : LAM α} {w : List α} {c : Nat}
    {t : α} (h : reprIdleAt s w c t) (idx : Int) (cb : Option Nat) :
    reprIdle (s.setCurrentIndex idx cb) w
      (max 0 (min idx ((w.length : Int) - 1))).toNat := by
  have hcw : c < w.length := reprIdleAt_lt h
  obtain ⟨hst, hw, hp, hn⟩ := h
  have htp : s.prevPath ++ s.nextPath.dropLast.reverse = w := by
    rw [hp, hn, List.dropLast_concat, List.reverse_reverse,
        ← take_succ_of_getElem hw, List.take_append_drop]
  set m : Nat := (max 0 (min idx ((w.length : Int) - 1))).toNat with hm
  have hmw : m < w.length := by omega
  have hwm : w[m]? = some (w.get ⟨m, hmw⟩) := by
    rw [List.getElem?_eq_getElem hmw]
    rfl
  unfold LAM.setCurrentIndex
  rw [finishAnimation_of_idle hst]
  dsimp only
  rw [htp]
  refine ⟨w.get ⟨m, hmw⟩, hst, hwm, ?_, ?_⟩
  · rw [← hm]
    exact take_succ_of_getElem hwm
  · rw [← hm]
    rw [drop_of_getElem hwm]
    simp

theorem getElem?_insertIdx [DecidableEq α] (w : List α) (p k : Nat) (x : α)
    (hp : p ≤ w.length) :
    (w.insertIdx p x)[k]? =
      if k < p then w[k]? else if k = p then some x else w[k - 1]? := by
  have hlen : (w.take p).length = p := by
    simp only [List.length_take]
    omega
  rw [insertIdx_eq_take_cons_drop _ _ _ hp, List.getElem?_append, hlen]
  by_cases h1 : k < p
  · rw [if_pos h1, if_pos h1, List.getElem?_take, if_pos (by omega)]
  · rw [if_neg h1, if_neg h1]
    by_cases h2 : k = p
    · subst h2
      simp
    · rw [if_neg h2]
      have h3 : k - p = (k - p - 1) + 1 := by omega
      rw [h3, List.getElem?_cons_succ, List.getElem?_drop]
      congr 1
      omega

theorem insertIdx_take (w : List α) (p m : Nat) (x : α) (hpm : p ≤ m)
    (hpw : p ≤ w.length) :
    (w.insertIdx p x).take (m + 1) = (w.take m).insertIdx p x := by
  classical
  have hp2 : p ≤ (w.take m).length := by
    simp only [List.length_take]
    omega
  apply List.ext_getElem?
  intro k
  rw [List.getElem?_take, getElem?_insertIdx w p k x hpw,
      getElem?_insertIdx (w.take m) p k x hp2]
  simp only [List.getElem?_take]
  split_ifs <;> first | rfl | omega

theorem insertIdx_drop_ge (w : List α) (p m : Nat) (x : α) (hpm : p ≤ m)
    (hpw : p ≤ w.length) :
    (w.insertIdx p x).drop (m + 1) = w.drop m := by
  classical
  apply List.ext_getElem?
  intro k
  rw [List.getElem?_drop, List.getElem?_drop,
      getElem?_insertIdx w p (m + 1 + k) x hpw]
  rw [if_neg (by omega), if_neg (by omega)]
  congr 1
  omega

theorem insertIdx_take_le (w : List α) (p m : Nat) (x : α) (hmp : m ≤ p)
    (hpw : p ≤ w.length) :
    (w.insertIdx p x).take m = w.take m := by
  classical
  apply List.ext_getElem?
  intro k
  rw [List.getElem?_take, List.getElem?_take]
  split_ifs with h1
  · rw [getElem?_insertIdx w p k x hpw, if_pos (by omega)]
  · rfl

theorem insertIdx_drop_le (w : List α) (p m : Nat) (x : α) (hmp : m ≤ p)
    (hpw : p ≤ w.length) :
    (w.insertIdx p x).drop m = (w.drop m).insertIdx (p - m) x := by
  classical
  have hp2 : p - m ≤ (w.drop m).length := by
    simp only [List.length_drop]
    omega
  apply List.ext_getElem?
  intro k
  rw [List.getElem?_drop, getElem?_insertIdx w p (m + k) x hpw,
      getElem?_insertIdx (w.drop m) (p - m) k x hp2]
  simp only [List.getElem?_drop]
  split_ifs <;> first | rfl | omega | (congr 1; omega)

theorem eraseIdx_take_lt (w : List α) (i m : Nat) (h : i ≤ m) :
    (w.eraseIdx i).take m = (w.take (m + 1)).eraseIdx i := by
  apply List.ext_getElem?
  intro k
  simp only [List.getElem?_take, List.getElem?_eraseIdx]
  split_ifs <;> first | rfl | omega

theorem eraseIdx_take_le (w : List α) (i m : Nat) (h : m ≤ i) :
    (w.eraseIdx i).take m = w.take m := by
  apply List.ext_getElem?
  intro k
  simp only [List.getElem?_take, List.getElem?_eraseIdx]
  split_ifs <;> first | rfl | omega

theorem eraseIdx_drop_ge (w : List α) (i m : Nat) (h : i ≤ m) :
    (w.eraseIdx i).drop m = w.drop (m + 1) := by
  apply List.ext_getElem?
  intro k
  simp only [List.getElem?_drop, List.getElem?_eraseIdx]
  rw [if_neg (by omega)]
  congr 1
  omega

theorem eraseIdx_drop_le (w : List α) (i m : Nat) (h : m ≤ i) :
    (w.eraseIdx i).drop m = (w.drop m).eraseIdx (i - m) := by
  apply List.ext_getElem?
  intro k
  simp only [List.getElem?_drop, List.getElem?_eraseIdx]
  split_ifs <;> first | rfl | omega

theorem setAt_idle [DecidableEq α] (interp : α → α → ℚ → α) {s : LAM α}
    {w : List α} {c : Nat} {t : α} (h : reprIdleAt s w c t) (i : Int)
    (loc : α) (h0 : 0 ≤ i) (hiN : i < (w.length : Int)) :
    reprIdle (s.setAt interp i (some loc)) (w.set i.toNat loc) c := by
  have hcw : c < w.length := reprIdleAt_lt h
  have hslen : s.length = (w.length : Int) := length_idleAt h
  obtain ⟨hst, hw, hp, hn⟩ := h
  have hplen : s.prevPath.length = c + 1 := by
    rw [hp]
    simp only [List.length_append, List.length_take, List.length_cons,
      List.length_nil]
    omega
  unfold LAM.setAt
  dsimp only
  rcases lt_trichotomy i (c : Int) with hlt | heq | hgt
  · have hx1 : ¬(i = (s.prevPath.length : Int) - 1 ∧ s.isIdle = true) :=
      fun hc => absurd hc.1 (by rw [hplen]; push_cast; omega)
    have hx2 : i < (s.prevPath.length : Int) - 1 := by
      rw [hplen]; push_cast; omega
    rw [if_neg hx1, if_pos hx2]
    have hjs : jsSetAt s.prevPath i loc = (w.set i.toNat loc).take c ++ [t] := by
      rw [hp]
      unfold jsSetAt
      rw [if_pos ⟨h0, by
        simp only [List.length_append, List.length_take, List.length_cons,
          List.length_nil]
        push_cast
        omega⟩]
      rw [set_append_left _ _ _ _ (by
        simp only [List.length_take]
        omega)]
      rw [← List.set_take]
    rw [hjs]
    rw [if_neg (by simp [LAM.isIdle, hst])]
    refine ⟨t, hst, ?_, rfl, ?_⟩
    · rw [List.getElem?_set, if_neg (by omega)]
      exact hw
    · rw [hn, List.drop_set, if_pos (by omega)]
  · have hitn : i.toNat = c := by omega
    have hx1 : (i = (s.prevPath.length : Int) - 1 ∧ s.isIdle = true) :=
      ⟨by rw [hplen]; push_cast; omega, isIdle_true hst⟩
    rw [if_pos hx1]
    rw [hitn, hp, hn, setLast_concat, setLast_concat]
    rw [if_neg (by simp [LAM.isIdle, hst])]
    refine ⟨loc, hst, ?_, ?_, ?_⟩
    · rw [List.getElem?_set, if_pos rfl, if_pos hcw]
    · rw [List.set_take, List.set_eq_of_length_le (by
        simp only [List.length_take]
        omega)]
    · rw [List.drop_set, if_pos (by omega)]
  · have hx1 : ¬(i = (s.prevPath.length : Int) - 1 ∧ s.isIdle = true) :=
      fun hc => absurd hc.1 (by rw [hplen]; push_cast; omega)
    have hx2 : ¬(i < (s.prevPath.length : Int) - 1) := by
      rw [hplen]; push_cast; omega
    rw [if_neg hx1, if_neg hx2]
    set j : Nat := w.length - i.toNat - 1 with hj
    have hjs : jsSetAt s.nextPath (s.length - i - 1) loc =
        ((w.set i.toNat loc).drop (c + 1)).reverse ++ [t] := by
      rw [hslen, hn]
      unfold jsSetAt
      rw [if_pos ⟨by omega, by
        simp only [List.length_append, List.length_reverse, List.length_drop,
          List.length_cons, List.length_nil]
        push_cast
        omega⟩]
      have htn : ((w.length : Int) - i - 1).toNat = j := by omega
      rw [htn]
      rw [set_append_left _ _ _ _ (by
        simp only [List.length_reverse, List.length_drop]
        omega)]
      rw [rev_set _ _ _ (by
        simp only [List.length_drop]
        omega)]
      have hidx : (w.drop (c + 1)).length - 1 - j = i.toNat - (c + 1) := by
        simp only [List.length_drop]
        omega
      rw [hidx, List.drop_set, if_neg (by omega)]
    rw [hjs]
    rw [if_neg (by simp [LAM.isIdle, hst])]
    refine ⟨t, hst, ?_, ?_, rfl⟩
    · rw [List.getElem?_set, if_neg (by omega)]
      exact hw
    · rw [hp, List.set_take, List.set_eq_of_length_le (by
        simp only [List.length_take]
        omega)]

theorem insertAt_idle [DecidableEq α] (interp : α → α → ℚ → α) {s : LAM α}
    {w : List α} {c : Nat} {t : α} (h : reprIdleAt s w c t) (i : Int)
    (loc : α) :
    ∃ w' c', w'.length = w.length + 1 ∧
      reprIdle (s.insertAt interp i (some loc)) w' c' := by
  have hcw : c < w.length := reprIdleAt_lt h
  have hslen : s.length = (w.length : Int) := length_idleAt h
  obtain ⟨hst, hw, hp, hn⟩ := h
  have hplen : s.prevPath.length = c + 1 := by
    rw [hp]
    simp only [List.length_append, List.length_take, List.length_cons,
      List.length_nil]
    omega
  have hnlen : s.nextPath.length = w.length - c := by
    rw [hn]
    simp only [List.length_append, List.length_reverse, List.length_drop,
      List.length_cons, List.length_nil]
    omega
  have hx0 : ¬((s.prevPath.length : Int) - 1 < 0) := by
    rw [hplen]; push_cast; omega
  unfold LAM.insertAt
  dsimp only
  by_cases hile : i ≤ (c : Int)
  · have hx2 : ¬(i > (s.prevPath.length : Int) - 1) := by
      rw [hplen]; push_cast; omega
    rw [if_neg hx0, if_neg hx2]
    set p : Nat := splicePos (c + 1) i with hpdef
    have hple : p ≤ c := by
      rw [hpdef]
      unfold splicePos
      split <;> omega
    have hjs : jsInsertAt s.prevPath i loc =
        (w.insertIdx p loc).take (c + 1) ++ [t] := by
      rw [hp]
      unfold jsInsertAt
      have hl : (w.take c ++ [t]).length = c + 1 := by
        simp only [List.length_append, List.length_take, List.length_cons,
          List.length_nil]
        omega
      rw [hl, ← hpdef]
      rw [insertIdx_append_left _ _ _ _ (by
        simp only [List.length_take]
        omega)]
      rw [← insertIdx_take w p c loc hple (by omega)]
    rw [hjs]
    rw [if_neg (by simp [LAM.isIdle, hst])]
    refine ⟨w.insertIdx p loc, c + 1, ?_, t, hst, ?_, rfl, ?_⟩
    · exact List.length_insertIdx _ _ (by omega)
    · rw [getElem?_insertIdx _ _ _ _ (by omega), if_neg (by omega),
        if_neg (by omega), Nat.add_sub_cancel]
      exact hw
    · rw [hn, ← insertIdx_drop_ge w p (c + 1) loc (by omega) (by omega)]
  · have hx2 : i > (s.prevPath.length : Int) - 1 := by
      rw [hplen]; push_cast; omega
    rw [if_neg hx0, if_pos hx2]
    set q : Nat := splicePos (w.length - c) ((w.length : Int) - i) with hqdef
    have hqle : q ≤ w.length - c - 1 := by
      rw [hqdef]
      unfold splicePos
      split <;> omega
    set r : Nat := w.length - q with hrdef
    have hrge : c + 1 ≤ r := by omega
    have hrle : r ≤ w.length := by omega
    have hjs : jsInsertAt s.nextPath (s.length - i) loc =
        ((w.insertIdx r loc).drop (c + 1)).reverse ++ [t] := by
      rw [hslen, hn]
      unfold jsInsertAt
      have hl : ((w.drop (c + 1)).reverse ++ [t]).length = w.length - c := by
        simp only [List.length_append, List.length_reverse, List.length_drop,
          List.length_cons, List.length_nil]
        omega
      rw [hl, ← hqdef]
      rw [insertIdx_append_left _ _ _ _ (by
        simp only [List.length_reverse, List.length_drop]
        omega)]
      rw [rev_insertIdx _ _ _ (by
        simp only [List.length_drop]
        omega)]
      have hidx : (w.drop (c + 1)).length - q = r - (c + 1) := by
        simp only [List.length_drop]
        omega
      rw [hidx]
      rw [← insertIdx_drop_le w r (c + 1) loc (by omega) (by omega)]
    rw [hjs]
    rw [if_neg (by simp [LAM.isIdle, hst])]
    refine ⟨w.insertIdx r loc, c, ?_, t, hst, ?_, ?_, rfl⟩
    · exact List.length_insertIdx _ _ (by omega)
    · rw [getElem?_insertIdx _ _ _ _ (by omega), if_pos (by omega)]
      exact hw
    · rw [hp, ← insertIdx_take_le w r c loc (by omega) (by omega)]

theorem isUpdateRequired_idle {s : LAM α} {w : List α} {c : Nat} {t : α}
    (h : reprIdleAt s w c t) (i : Int) (h0 : 0 ≤ i)
    (hiN : i < (w.length : Int)) (h2 : 2 ≤ w.length) :
    s.isUpdateRequiredIfRemoveAt i = decide (i = (c : Int)) := by
  have hcw : c < w.length := reprIdleAt_lt h
  have hslen : s.length = (w.length : Int) := length_idleAt h
  obtain ⟨hst, hw, hp, hn⟩ := h
  have hplen : s.prevPath.length = c + 1 := by
    rw [hp]
    simp only [List.length_append, List.length_take, List.length_cons,
      List.length_nil]
    omega
  unfold LAM.isUpdateRequiredIfRemoveAt
  dsimp only
  rw [hslen]
  rw [if_neg (show ¬(i ≥ (w.length : Int)) by omega),
      if_neg (show ¬((w.length : Int) ≤ 1) by omega),
      if_neg (show ¬(i < 0) by omega),
      isIdle_true hst]
  simp only [if_true]
  rw [hplen]
  rw [show ((c + 1 : Nat) : Int) - 1 = (c : Int) by push_cast; omega]

theorem removeAt_idle [DecidableEq α] (interp : α → α → ℚ → α) {s : LAM α}
    {w : List α} {c : Nat} {t : α} (h : reprIdleAt s w c t) (i : Int)
    (h0 : 0 ≤ i) (hiN : i < (w.length : Int)) (h2 : 2 ≤ w.length) :
    reprIdle (s.removeAt interp i) (w.eraseIdx i.toNat)
      (if i ≤ (c : Int) then c - 1 else c) := by
  have hcw : c < w.length := reprIdleAt_lt h
  have hslen : s.length = (w.length : Int) := length_idleAt h
  have hupd := isUpdateRequired_idle h i h0 hiN h2
  obtain ⟨hst, hw, hp, hn⟩ := h
  have hplen : s.prevPath.length = c + 1 := by
    rw [hp]
    simp only [List.length_append, List.length_take, List.length_cons,
      List.length_nil]
    omega
  unfold LAM.removeAt
  dsimp only
  rw [hslen]
  rw [if_neg (show ¬(i ≥ (w.length : Int)) by omega),
      if_neg (show ¬((w.length : Int) ≤ 1) by omega),
      if_neg (show ¬(i < 0) by omega)]
  rw [hupd]
  rcases lt_trichotomy i (c : Int) with hlt | heq | hgt
  · -- i < c: no cursor move, removal from the traveled buffer
    have hc1 : c - 1 + 1 = c := by omega
    rw [show decide (i = (c : Int)) = false by simp; omega]
    simp only [Bool.false_eq_true, if_false]
    rw [if_pos (show i < (s.prevPath.length : Int) - 1 by
      rw [hplen]; push_cast; omega)]
    have hjs : jsRemoveAt s.prevPath i =
        (w.eraseIdx i.toNat).take (c - 1) ++ [t] := by
      rw [hp]
      unfold jsRemoveAt
      dsimp only
      have hl : (w.take c ++ [t]).length = c + 1 := by
        simp only [List.length_append, List.length_take, List.length_cons,
          List.length_nil]
        omega
      rw [hl]
      have hsp : splicePos (c + 1) i = i.toNat := by
        unfold splicePos
        split <;> omega
      rw [hsp, if_pos (by omega)]
      rw [eraseIdx_append_left _ _ _ (by
        simp only [List.length_take]
        omega)]
      rw [eraseIdx_take_lt w i.toNat (c - 1) (by omega), hc1]
    rw [hjs]
    rw [if_neg (by simp [LAM.isIdle, hst])]
    rw [if_pos (by omega)]
    refine ⟨t, hst, ?_, rfl, ?_⟩
    · rw [List.getElem?_eraseIdx, if_neg (by omega),
        show c - 1 + 1 = c from hc1]
      exact hw
    · rw [hn, hc1, ← eraseIdx_drop_ge w i.toNat c (by omega)]
  · -- i = c: the cursor itself is removed after moving to a neighbor
    rw [show decide (i = (c : Int)) = true by simp [heq]]
    simp only [eq_self_iff_true, if_true]
    by_cases hc0 : c = 0
    · -- cursor at the head: move to index 1, then remove the old head
      subst hc0
      have hi0 : i = 0 := by omega
      subst hi0
      rw [if_pos (show (0 : Int) < 1 by omega)]
      have hscim := setCurrentIndex_idle ⟨hst, hw, hp, hn⟩ 1 none
      rw [show (max 0 (min 1 ((w.length : Int) - 1))).toNat = 1 by omega]
        at hscim
      obtain ⟨t2, hst2, hw2, hp2, hn2⟩ := hscim
      rw [if_pos (show (0 : Int) < 1 by omega)]
      have hjs : jsRemoveAt (s.setCurrentIndex 1 none).prevPath 0 =
          (w.eraseIdx 0).take 0 ++ [t2] := by
        rw [hp2]
        unfold jsRemoveAt
        dsimp only
        have hl : (w.take 1 ++ [t2]).length = 2 := by
          simp only [List.length_append, List.length_take, List.length_cons,
            List.length_nil]
          omega
        rw [hl]
        have hsp : splicePos 2 0 = 0 := by
          unfold splicePos
          split <;> omega
        rw [hsp, if_pos (by omega)]
        rw [eraseIdx_append_left _ _ _ (by
          simp only [List.length_take]
          omega)]
        rw [eraseIdx_take_lt w 0 0 (by omega)]
      rw [hjs]
      rw [if_neg (by simp [LAM.isIdle, hst2])]
      rw [if_pos (by omega)]
      refine ⟨t2, hst2, ?_, rfl, ?_⟩
      · rw [List.getElem?_eraseIdx, if_neg (by omega)]
        simpa using hw2
      · rw [hn2, show (0 : Int).toNat = 0 from rfl,
          ← eraseIdx_drop_ge w 0 1 (by omega)]
    · -- cursor in the interior or at the end: move back one, then remove
      have hc1 : c - 1 + 1 = c := by omega
      rw [if_neg (show ¬(i < 1) by omega)]
      have hscim := setCurrentIndex_idle ⟨hst, hw, hp, hn⟩ (i - 1) none
      rw [show (max 0 (min (i - 1) ((w.length : Int) - 1))).toNat = c - 1 by
        omega] at hscim
      obtain ⟨t2, hst2, hw2, hp2, hn2⟩ := hscim
      rw [hc1] at hn2
      rw [if_neg (show ¬(i < i - 1) by omega)]
      have hjs : jsRemoveAt (s.setCurrentIndex (i - 1) none).nextPath
          ((w.length : Int) - i - 1) =
          ((w.eraseIdx i.toNat).drop c).reverse ++ [t2] := by
        rw [hn2]
        unfold jsRemoveAt
        dsimp only
        have hl : ((w.drop c).reverse ++ [t2]).length = w.length - c + 1 := by
          simp only [List.length_append, List.length_reverse, List.length_drop,
            List.length_cons, List.length_nil]
          try omega
        rw [hl]
        have hsp : splicePos (w.length - c + 1) ((w.length : Int) - i - 1) =
            w.length - c - 1 := by
          unfold splicePos
          split <;> omega
        rw [hsp, if_pos (by omega)]
        rw [eraseIdx_append_left _ _ _ (by
          simp only [List.length_reverse, List.length_drop]
          omega)]
        rw [rev_eraseIdx _ _ (by
          simp only [List.length_drop]
          omega)]
        have hidx : (w.drop c).length - 1 - (w.length - c - 1) = 0 := by
          simp only [List.length_drop]
          omega
        rw [hidx]
        rw [List.eraseIdx_eq_take_drop_succ]
        simp only [List.take_zero, List.nil_append, List.drop_drop]
        have hde : (w.eraseIdx i.toNat).drop c = w.drop (c + 1) := by
          rw [eraseIdx_drop_ge w i.toNat c (by omega)]
        rw [hde, show c + (0 + 1) = c + 1 by omega]
      rw [hjs]
      rw [if_neg (by simp [LAM.isIdle, hst2])]
      rw [if_pos (by omega)]
      refine ⟨t2, hst2, ?_, ?_, ?_⟩
      · rw [List.getElem?_eraseIdx, if_pos (by omega)]
        exact hw2
      · rw [hp2, ← eraseIdx_take_le w i.toNat (c - 1) (by omega)]
      · rw [hc1]
  · -- i > c: no cursor move, removal from the upcoming buffer
    rw [show decide (i = (c : Int)) = false by simp; omega]
    simp only [Bool.false_eq_true, if_false]
    rw [if_neg (show ¬(i < (s.prevPath.length : Int) - 1) by
      rw [hplen]; push_cast; omega)]
    have hjs : jsRemoveAt s.nextPath ((w.length : Int) - i - 1) =
        ((w.eraseIdx i.toNat).drop (c + 1)).reverse ++ [t] := by
      rw [hn]
      unfold jsRemoveAt
      dsimp only
      have hl : ((w.drop (c + 1)).reverse ++ [t]).length = w.length - c := by
        simp only [List.length_append, List.length_reverse, List.length_drop,
          List.length_cons, List.length_nil]
        omega
      rw [hl]
      have hsp : splicePos (w.length - c) ((w.length : Int) - i - 1) =
          w.length - i.toNat - 1 := by
        unfold splicePos
        split <;> omega
      rw [hsp, if_pos (by omega)]
      rw [eraseIdx_append_left _ _ _ (by
        simp only [List.length_reverse, List.length_drop]
        omega)]
      rw [rev_eraseIdx _ _ (by
        simp only [List.length_drop]
        omega)]
      have hidx : (w.drop (c + 1)).length - 1 - (w.length - i.toNat - 1) =
          i.toNat - (c + 1) := by
        simp only [List.length_drop]
        omega
      rw [hidx]
      rw [← eraseIdx_drop_le w i.toNat (c + 1) (by omega)]
    rw [hjs]
    rw [if_neg (by simp [LAM.isIdle, hst])]
    rw [if_neg (by omega)]
    refine ⟨t, hst, ?_, ?_, rfl⟩
    · rw [List.getElem?_eraseIdx, if_pos (by omega)]
      exact hw
    · rw [hp, ← eraseIdx_take_le w i.toNat c (by omega)]

theorem clear_spec (s : LAM α) :
    (s.clear).prevPath = [] ∧ (s.clear).nextPath = [] ∧
    (s.clear).state = TState.IDLE ∧ (s.clear).length = 0 :=
  ⟨rfl, rfl, rfl, rfl⟩

theorem removeAt_singleton [DecidableEq α] (interp : α → α → ℚ → α)
    {s : LAM α} {w : List α} {c : Nat} {t : α} (h : reprIdleAt s w c t)
    (hN : w.length = 1) (i : Int) (h0 : 0 ≤ i)
    (hiN : i < (w.length : Int)) : s.removeAt interp i = s.clear := by
  have hslen := length_idleAt h
  unfold LAM.removeAt
  dsimp only
  rw [hslen]
  rw [if_neg (by omega), if_pos (by omega)]

/-- C9: on an engine whose path buffers are empty, `insertAt(i, w)` ignores
the index entirely: for every pair of indices the results coincide, the
location becomes the single shared element of both buffers, the length is 1,
the current index is 0 and the engine stays idle. -/
theorem C9_insertAt_empty [DecidableEq α] (interp : α → α → ℚ → α)
    (s : LAM α) (hp : s.prevPath = []) (hn : s.nextPath = [])
    (hst : s.state = TState.IDLE) (i i2 : Int) (x : α) :
    s.insertAt interp i (some x) = s.insertAt interp i2 (some x) ∧
    (s.insertAt interp i (some x)).prevPath = [x] ∧
    (s.insertAt interp i (some x)).nextPath = [x] ∧
    (s.insertAt interp i (some x)).length = 1 ∧
    (s.insertAt interp i (some x)).getCurrentIndex = 0 ∧
    (s.insertAt interp i (some x)).isIdle = true := by
  have key : ∀ j : Int, s.insertAt interp j (some x) =
      { s with prevPath := [x], nextPath := [x] } := by
    intro j
    unfold LAM.insertAt
    dsimp only
    rw [if_pos (show (s.prevPath.length : Int) - 1 < 0 by rw [hp]; simp)]
    rw [hp, hn]
    rw [if_neg (by simp [LAM.isIdle, hst])]
    rw [show jsInsertAt ([] : List α) 0 x = [x] from rfl]
  rw [key i, key i2]
  refine ⟨rfl, rfl, rfl, ?_, ?_, ?_⟩
  · simp [LAM.length, LAM.isIdle, hst]
  · simp [LAM.getCurrentIndex, LAM.isIdle, hst]
  · simp [LAM.isIdle, hst]

/-- Witness for C9 at a freshly initialized engine and an out-of-range
negative index. -/
theorem C9_witness :
    ((LAM.init none : LAM Int).insertAt (fun a _ _ => a) (-7) (some 3)) =
      ((LAM.init none : LAM Int).insertAt (fun a _ _ => a) 99 (some 3)) ∧
    ((LAM.init none : LAM Int).insertAt (fun a _ _ => a) (-7)
      (some 3)).prevPath = [3] ∧
    ((LAM.init none : LAM Int).insertAt (fun a _ _ => a) (-7)
      (some 3)).length = 1 ∧
    ((LAM.init none : LAM Int).insertAt (fun a _ _ => a) (-7)
      (some 3)).getCurrentIndex = 0 ∧
    ((LAM.init none : LAM Int).insertAt (fun a _ _ => a) (-7)
      (some 3)).isIdle = true := by
  have h := C9_insertAt_empty (fun a _ _ => a) (LAM.init none : LAM Int)
    rfl rfl rfl (-7) 99 3
  exact ⟨h.1, h.2.1, h.2.2.2.1, h.2.2.2.2.1, h.2.2.2.2.2⟩

/-- C2 (amended): removing the idle cursor waypoint with more than one
waypoint present is NOT rejected.  The engine first moves the cursor to the
most adjacent position (`index - 1`, or 1 when the cursor is at the head) and
then removes the waypoint: the result is idle over the path with the waypoint
erased, at cursor `c - 1` (clamped at 0), and the length has decreased by
one — the state is mutated, not left unchanged.  (Likewise, a non-idle
removal of an active-segment endpoint proceeds rather than being rejected;
see the counterexample.) -/
theorem C2_removeAt_cursor_proceeds [DecidableEq α] (interp : α → α → ℚ → α)
    {s : LAM α} {w : List α} {c : Nat} {t : α} (h : reprIdleAt s w c t)
    (h2 : 2 ≤ w.length) :
    reprIdle (s.removeAt interp (c : Int)) (w.eraseIdx c) (c - 1) ∧
    (s.removeAt interp (c : Int)).length = (w.length : Int) - 1 ∧
    s.length = (w.length : Int) := by
  have hcw := reprIdleAt_lt h
  have hra := removeAt_idle interp h (c : Int) (by omega)
    (by exact_mod_cast hcw) h2
  rw [if_pos (le_refl _), show ((c : Int)).toNat = c from rfl] at hra
  refine ⟨hra, ?_, length_idleAt h⟩
  obtain ⟨t2, h2r⟩ := hra
  rw [length_idleAt h2r, List.length_eraseIdx, if_pos hcw]
  omega

/-- Counterexample for C2 as stated: an idle engine over `[10, 20]` at cursor
0 does not reject `removeAt(0)` — it ends idle over `[20]` with length 1; and
an engine animating the final segment `10 → 20` does not reject removal of
the in-use endpoint at index 1 — it finishes the transition abruptly and ends
idle over `[10]`. -/
theorem C2_counterexample :
    ((⟨TState.IDLE, 0, true, none, [10], [20, 10],
        MTM.init none⟩ : LAM Int).removeAt (fun a _ _ => a) 0).prevPath =
      [20] ∧
    ((⟨TState.IDLE, 0, true, none, [10], [20, 10],
        MTM.init none⟩ : LAM Int).removeAt (fun a _ _ => a) 0).nextPath =
      [20] ∧
    ((⟨TState.IDLE, 0, true, none, [10], [20, 10],
        MTM.init none⟩ : LAM Int).removeAt (fun a _ _ => a) 0).length = 1 ∧
    (⟨TState.IDLE, 0, true, none, [10], [20, 10],
        MTM.init none⟩ : LAM Int).length = 2 ∧
    ((⟨TState.ANIMATING, mkRat 1 2, true, none, [10, 15], [20, 15],
        MTM.init none⟩ : LAM Int).removeAt (fun a _ _ => a) 1).prevPath =
      [10] ∧
    ((⟨TState.ANIMATING, mkRat 1 2, true, none, [10, 15], [20, 15],
        MTM.init none⟩ : LAM Int).removeAt (fun a _ _ => a) 1).nextPath =
      [10] ∧
    ((⟨TState.ANIMATING, mkRat 1 2, true, none, [10, 15], [20, 15],
        MTM.init none⟩ : LAM Int).removeAt (fun a _ _ => a) 1).state =
      TState.IDLE := by
  decide

/-- Witness for the amended C2 at the idle engine over `[10, 20]`. -/
theorem C2_witness :
    reprIdleAt (⟨TState.IDLE, 0, true, none, [10], [20, 10],
      MTM.init none⟩ : LAM Int) [10, 20] 0 10 ∧
    2 ≤ ([10, 20] : List Int).length ∧
    reprIdle ((⟨TState.IDLE, 0, true, none, [10], [20, 10],
      MTM.init none⟩ : LAM Int).removeAt (fun a _ _ => a) 0)
      (([10, 20] : List Int).eraseIdx 0) 0 ∧
    ((⟨TState.IDLE, 0, true, none, [10], [20, 10],
      MTM.init none⟩ : LAM Int).removeAt (fun a _ _ => a) 0).length =
      ([10, 20] : List Int).length - 1 := by
  have hrep : reprIdleAt (⟨TState.IDLE, 0, true, none, [10], [20, 10],
      MTM.init none⟩ : LAM Int) [10, 20] 0 10 := by
    refine ⟨rfl, rfl, rfl, rfl⟩
  have h := C2_removeAt_cursor_proceeds (fun a _ _ => a) hrep (by decide)
  exact ⟨hrep, by decide, h.1, h.2.1⟩

/-- C8 (corrected): when the engine is idle over a nonempty logical path of N
waypoints, the two buffers share the cursor waypoint as their common tail,
their lengths sum to N + 1, and both are nonempty; this configuration is
preserved by `insertAt`, valid `setAt`, in-range `removeAt`,
`setCurrentIndex`, `clear` (which yields the empty configuration) and
`next`/`prev` runs driven to completion.  At N = 0, however — the freshly
initialized engine — both buffers are empty and the sum is 0, not N + 1, so
the claimed equation does not hold there (see the counterexample). -/
theorem C8_buffer_invariant [DecidableEq α] (interp : α → α → ℚ → α)
    {s : LAM α} {w : List α} {c : Nat} {t : α} (h : reprIdleAt s w c t) :
    (s.prevPath.length + s.nextPath.length = w.length + 1 ∧
      s.prevPath ≠ [] ∧ s.nextPath ≠ []) ∧
    (∀ (i : Int) (loc : α), ∃ w2 c2, w2.length = w.length + 1 ∧
      reprIdle (s.insertAt interp i (some loc)) w2 c2) ∧
    (∀ (i : Int) (loc : α), 0 ≤ i → i < (w.length : Int) →
      reprIdle (s.setAt interp i (some loc)) (w.set i.toNat loc) c) ∧
    (∀ i : Int, 0 ≤ i → i < (w.length : Int) → 2 ≤ w.length →
      reprIdle (s.removeAt interp i) (w.eraseIdx i.toNat)
        (if i ≤ (c : Int) then c - 1 else c)) ∧
    (∀ (idx : Int) (cb : Option Nat),
      reprIdle (s.setCurrentIndex idx cb) w
        (max 0 (min idx ((w.length : Int) - 1))).toNat) ∧
    ((s.clear).prevPath = [] ∧ (s.clear).nextPath = [] ∧
      (s.clear).state = TState.IDLE) ∧
    (∀ (u : α) (cb : Option Nat) (ts : List ℚ), w[c + 1]? = some u →
      FwdRun w c u ((s.next interp cb).ticks interp ts)) ∧
    (∀ (t0 : α) (cb : Option Nat) (ts : List ℚ), 1 ≤ c →
      w[c - 1]? = some t0 →
      BwdRun w c t0 ((s.prev interp cb).ticks interp ts)) := by
  have hcw := reprIdleAt_lt h
  refine ⟨?_, ?_, ?_, ?_, ?_, ?_, ?_, ?_⟩
  · obtain ⟨hst, hw, hp, hn⟩ := h
    refine ⟨?_, ?_, ?_⟩
    · rw [hp, hn]
      simp only [List.length_append, List.length_take, List.length_reverse,
        List.length_drop, List.length_cons, List.length_nil]
      omega
    · rw [hp]
      simp
    · rw [hn]
      simp
  · intro i loc
    exact insertAt_idle interp h i loc
  · intro i loc h0 hiN
    exact setAt_idle interp h i loc h0 hiN
  · intro i h0 hiN h2w
    exact removeAt_idle interp h i h0 hiN h2w
  · intro idx cb
    exact setCurrentIndex_idle h idx cb
  · exact ⟨(clear_spec s).1, (clear_spec s).2.1, (clear_spec s).2.2.1⟩
  · intro u cb ts hu
    have hc1 : c + 1 < w.length := (List.getElem?_eq_some.mp hu).1
    have hnl : 1 < s.nextPath.length := by
      rw [h.2.2.2]
      simp only [List.length_append, List.length_reverse, List.length_drop,
        List.length_cons, List.length_nil]
      omega
    have hne : s.next interp cb = s.startAnimation interp true cb :=
      next_eq_startAnimation (by rw [h.1]; intro hx; exact nomatch hx) hnl
        interp cb
    have hrun : FwdRun w c u (s.next interp cb) := by
      rw [hne]
      exact Or.inl ⟨t, t, (startAnimation_fwd_idleAt h hu interp cb).1⟩
    exact ticks_preserve interp (FwdRun w c u)
      (fun τ r hr => tick_FwdRun interp τ hr) ts _ hrun
  · intro t0 cb ts h1 ht0
    have hpl : 1 < s.prevPath.length := by
      rw [h.2.2.1]
      simp only [List.length_append, List.length_take, List.length_cons,
        List.length_nil]
      omega
    have hne : s.prev interp cb = s.startAnimation interp false cb :=
      prev_eq_startAnimation (by rw [h.1]; intro hx; exact nomatch hx) hpl
        interp cb
    have hrun : BwdRun w c t0 (s.prev interp cb) := by
      rw [hne]
      exact Or.inl ⟨t, t, (startAnimation_bwd_idleAt h h1 ht0 interp cb).1⟩
    exact ticks_preserve interp (BwdRun w c t0)
      (fun τ r hr => tick_BwdRun interp τ hr) ts _ hrun

/-- Counterexample for C8 as stated: the freshly initialized engine is idle
with a logical path of 0 waypoints, both buffers empty — and the buffer-size
sum is 0, not N + 1 = 1. -/
theorem C8_counterexample :
    (LAM.init none : LAM Int).state = TState.IDLE ∧
    (LAM.init none : LAM Int).length = 0 ∧
    (LAM.init none : LAM Int).prevPath = [] ∧
    (LAM.init none : LAM Int).nextPath = [] ∧
    ((LAM.init none : LAM Int).prevPath.length : Int) +
        ((LAM.init none : LAM Int).nextPath.length : Int) ≠
      (LAM.init none : LAM Int).length + 1 := by
  refine ⟨rfl, rfl, rfl, rfl, by decide⟩

/-- Witness for the corrected C8 at the idle engine over `[10, 20]`,
including one frame-clock run of `next`. -/
theorem C8_witness :
    reprIdleAt (⟨TState.IDLE, 0, true, none, [10], [20, 10],
      MTM.init none⟩ : LAM Int) [10, 20] 0 10 ∧
    (⟨TState.IDLE, 0, true, none, [10], [20, 10],
      MTM.init none⟩ : LAM Int).prevPath.length +
      (⟨TState.IDLE, 0, true, none, [10], [20, 10],
        MTM.init none⟩ : LAM Int).nextPath.length = 3 ∧
    reprIdle ((⟨TState.IDLE, 0, true, none, [10], [20, 10],
      MTM.init none⟩ : LAM Int).setCurrentIndex 1 none) [10, 20] 1 ∧
    FwdRun [10, 20] 0 20
      (((⟨TState.IDLE, 0, true, none, [10], [20, 10],
        MTM.init none⟩ : LAM Int).next (fun a _ _ => a) none).ticks
        (fun a _ _ => a) []) := by
  have hrep : reprIdleAt (⟨TState.IDLE, 0, true, none, [10], [20, 10],
      MTM.init none⟩ : LAM Int) [10, 20] 0 10 := ⟨rfl, rfl, rfl, rfl⟩
  have h := C8_buffer_invariant (fun a _ _ => a) hrep
  refine ⟨hrep, by decide, ?_, h.2.2.2.2.2.2.1 20 none [] (by decide)⟩
  have h2 := h.2.2.2.2.1 1 none
  rw [show (max 0 (min 1 ((([10, 20] : List Int).length : Int) - 1))).toNat
    = 1 by decide] at h2
  exact h2

/-! ### Length bookkeeping on animating and paused engines -/

theorem finishAnimation_idle_state [DecidableEq α] (s : LAM α) (ft : Bool)
    (cb : Option Nat) : (s.finishAnimation ft cb).state = TState.IDLE := by
  unfold LAM.finishAnimation
  dsimp only
  by_cases h : s.isIdle = true
  · rw [if_pos h]
    unfold LAM.isIdle at h
    simpa using h
  · rw [if_neg h]
    split <;> split <;> split <;> rfl

theorem setCurrentIndex_finish [DecidableEq α] (s : LAM α) (idx : Int)
    (cb : Option Nat) :
    s.setCurrentIndex idx cb =
      (s.finishAnimation false none).setCurrentIndex idx cb := by
  conv_lhs => unfold LAM.setCurrentIndex
  conv_rhs => unfold LAM.setCurrentIndex
  rw [finishAnimation_of_idle (finishAnimation_idle_state s false none)]

theorem setCurrentIndex_fwd [DecidableEq α] {s : LAM α} {w : List α} {c : Nat}
    {t u wp : α} (hr : reprFwdAt s w c t u wp) (idx : Int) (cb : Option Nat) :
    reprIdle (s.setCurrentIndex idx cb) w
      (max 0 (min idx ((w.length : Int) - 1))).toNat := by
  rw [setCurrentIndex_finish]
  exact setCurrentIndex_idle (reprIdleAt_finishAnimation_fwd hr false none)
    idx cb

theorem setCurrentIndex_bwd [DecidableEq α] {s : LAM α} {w : List α} {c : Nat}
    {t u wp : α} (hr : reprBwdAt s w c t u wp) (idx : Int) (cb : Option Nat) :
    reprIdle (s.setCurrentIndex idx cb) w
      (max 0 (min idx ((w.length : Int) - 1))).toNat := by
  rw [setCurrentIndex_finish]
  exact setCurrentIndex_idle (reprIdleAt_finishAnimation_bwd hr false none)
    idx cb

theorem length_eval_idle (r : LAM α) {p n : Nat} (hp : r.prevPath.length = p)
    (hn : r.nextPath.length = n) (hsum : 1 ≤ p + n)
    (hst : r.state = TState.IDLE) : r.length = (p : Int) + n - 1 := by
  unfold LAM.length
  dsimp only
  rw [hp, hn, isIdle_true hst]
  rw [if_neg (by omega)]
  simp only [eq_self_iff_true, if_true]

theorem length_eval_nonidle (r : LAM α) {p n : Nat}
    (hp : r.prevPath.length = p) (hn : r.nextPath.length = n)
    (hsum : 1 ≤ p + n) (hst : r.state ≠ TState.IDLE) :
    r.length = (p : Int) + n - 2 := by
  unfold LAM.length
  dsimp only
  rw [hp, hn, isIdle_false hst]
  rw [if_neg (by omega)]
  simp only [Bool.false_eq_true, if_false]
  omega

theorem length_jsRemoveAt (l : List α) (i : Int) (h0 : 0 ≤ i)
    (hi : i < (l.length : Int)) : (jsRemoveAt l i).length = l.length - 1 := by
  unfold jsRemoveAt splicePos
  dsimp only
  rw [if_neg (show ¬(i < 0) by omega)]
  rw [if_pos (show min i.toNat l.length < l.length by omega)]
  rw [List.length_eraseIdx, if_pos (by omega)]

theorem updateWaypoint_lengths (interp : α → α → ℚ → α) (s : LAM α) :
    (s.updateWaypoint interp).prevPath.length = s.prevPath.length ∧
    (s.updateWaypoint interp).nextPath.length = s.nextPath.length := by
  unfold LAM.updateWaypoint
  split
  · exact ⟨rfl, rfl⟩
  · split
    · dsimp only
      exact ⟨length_setLast _ _, length_setLast _ _⟩
    · exact ⟨rfl, rfl⟩

theorem panToAnimating_proj [DecidableEq α] (s : LAM α) :
    (s.panToAnimatingLineSegment).prevPath = s.prevPath ∧
    (s.panToAnimatingLineSegment).nextPath = s.nextPath ∧
    (s.panToAnimatingLineSegment).state = s.state := by
  unfold LAM.panToAnimatingLineSegment
  split
  · exact ⟨rfl, rfl, rfl⟩
  · exact ⟨rfl, rfl, rfl⟩

theorem refresh_length [DecidableEq α] (interp : α → α → ℚ → α) (r : LAM α) :
    ((r.updateWaypoint interp).panToAnimatingLineSegment).length =
      r.length := by
  have h1 := updateWaypoint_lengths interp r
  have h2 := panToAnimating_proj (r.updateWaypoint interp)
  have h3 := (updateWaypoint_proj interp r).1
  unfold LAM.length LAM.isIdle
  dsimp only
  rw [h2.1, h2.2.1, h2.2.2, h1.1, h1.2, h3]

theorem removal_wrap_length [DecidableEq α] (interp : α → α → ℚ → α)
    (r : LAM α) (b : Bool) :
    (if b = true then (r.updateWaypoint interp).panToAnimatingLineSegment
      else r).length = r.length := by
  cases b
  · rfl
  · exact refresh_length interp r

theorem isUpdateRequired_nonidle {s : LAM α} (hst : s.state ≠ TState.IDLE)
    (i : Int) (h0 : 0 ≤ i) (hiN : i < s.length) (h2 : 1 < s.length) :
    s.isUpdateRequiredIfRemoveAt i =
      ((decide (i < 1) && decide (i = (s.prevPath.length : Int) - 1 - 1)) ||
        (decide (i = s.length - 1) &&
          decide (i = (s.prevPath.length : Int) - 1))) := by
  unfold LAM.isUpdateRequiredIfRemoveAt
  dsimp only
  rw [if_neg (by omega), if_neg (by omega), if_neg (show ¬(i < 0) by omega),
      isIdle_false hst]
  simp only [Bool.false_eq_true, if_false]
  cases hb1 : (decide (i < 1) &&
      decide (i = (s.prevPath.length : Int) - 1 - 1))
  · simp only [Bool.false_eq_true, if_false, Bool.false_or]
    cases hb2 : (decide (i = s.length - 1) &&
        decide (i = (s.prevPath.length : Int) - 1))
    · simp only [Bool.false_eq_true, if_false]
    · simp only [eq_self_iff_true, if_true]
  · simp only [eq_self_iff_true, if_true, Bool.true_or]

theorem insertAt_length [DecidableEq α] (interp : α → α → ℚ → α) (s : LAM α)
    (i : Int) (loc : α) (hne : s.prevPath ≠ []) :
    (s.insertAt interp i (some loc)).length = s.length + 1 := by
  have hpl : 1 ≤ s.prevPath.length := List.length_pos.mpr hne
  unfold LAM.insertAt
  dsimp only
  rw [if_neg (show ¬((s.prevPath.length : Int) - 1 < 0) by omega)]
  by_cases hgt : i > (s.prevPath.length : Int) - 1
  · rw [if_pos hgt, removal_wrap_length interp]
    by_cases hs : s.state = TState.IDLE
    · rw [length_eval_idle { s with
          nextPath := jsInsertAt s.nextPath (s.length - i) loc } rfl
          (length_jsInsertAt _ _ _) (by omega) hs,
        length_eval_idle s rfl rfl (by omega) hs]
      push_cast
      omega
    · rw [length_eval_nonidle { s with
          nextPath := jsInsertAt s.nextPath (s.length - i) loc } rfl
          (length_jsInsertAt _ _ _) (by omega) hs,
        length_eval_nonidle s rfl rfl (by omega) hs]
      push_cast
      omega
  · rw [if_neg hgt, removal_wrap_length interp]
    by_cases hs : s.state = TState.IDLE
    · rw [length_eval_idle { s with
          prevPath := jsInsertAt s.prevPath i loc }
          (length_jsInsertAt _ _ _) rfl (by omega) hs,
        length_eval_idle s rfl rfl (by omega) hs]
      push_cast
      omega
    · rw [length_eval_nonidle { s with
          prevPath := jsInsertAt s.prevPath i loc }
          (length_jsInsertAt _ _ _) rfl (by omega) hs,
        length_eval_nonidle s rfl rfl (by omega) hs]
      push_cast
      omega

theorem removeAt_length_fwd [DecidableEq α] (interp : α → α → ℚ → α)
    {s : LAM α} {w : List α} {c : Nat} {t u wp : α}
    (hr : reprFwdAt s w c t u wp) (i : Int) (h0 : 0 ≤ i)
    (hiN : i < (w.length : Int)) :
    (s.removeAt interp i).length = (w.length : Int) - 1 := by
  have hc1 : c + 1 < w.length := reprFwdAt_lt hr
  have hslen : s.length = (w.length : Int) := length_fwdAt hr
  have hplen : s.prevPath.length = c + 2 := (reprFwdAt_lengths hr).1
  have hnlen : s.nextPath.length = w.length - c := (reprFwdAt_lengths hr).2
  have hst : s.state ≠ TState.IDLE := hr.1
  have hupd := isUpdateRequired_nonidle hst i h0 (by omega) (by omega)
  rw [hplen, hslen] at hupd
  unfold LAM.removeAt
  dsimp only
  rw [hslen, if_neg (by omega), if_neg (by omega),
      if_neg (show ¬(i < 0) by omega), hplen]
  by_cases hA : i = 0 ∧ c = 0
  · have hu : s.isUpdateRequiredIfRemoveAt i = true := by
      rw [hupd]
      simp only [Bool.or_eq_true, Bool.and_eq_true, decide_eq_true_eq]
      omega
    rw [hu]
    simp only [eq_self_iff_true, if_true]
    rw [if_pos (show i < 1 by omega)]
    have hsc := setCurrentIndex_fwd hr 1 none
    rw [show (max 0 (min 1 ((w.length : Int) - 1))).toNat = 1 by omega] at hsc
    obtain ⟨t2, hst2, hw2, hp2, hn2⟩ := hsc
    have hp2len : (s.setCurrentIndex 1 none).prevPath.length = 2 := by
      rw [hp2]
      simp only [List.length_append, List.length_take, List.length_cons,
        List.length_nil]
      omega
    have hn2len : (s.setCurrentIndex 1 none).nextPath.length =
        w.length - 1 := by
      rw [hn2]
      simp only [List.length_append, List.length_reverse, List.length_drop,
        List.length_cons, List.length_nil]
      omega
    have hx2 : i < ((s.setCurrentIndex 1 none).prevPath.length : Int) := by
      rw [hp2len]
      omega
    have hrem : (jsRemoveAt (s.setCurrentIndex 1 none).prevPath i).length =
        1 := by
      rw [length_jsRemoveAt _ i h0 hx2, hp2len]
    rw [if_pos (show i < 1 by omega), removal_wrap_length interp]
    rw [length_eval_idle { s.setCurrentIndex 1 none with
        prevPath := jsRemoveAt (s.setCurrentIndex 1 none).prevPath i }
      hrem hn2len (by omega) hst2]
    omega
  · by_cases hB : i = (w.length : Int) - 1 ∧ i = (c : Int) + 1
    · have hu : s.isUpdateRequiredIfRemoveAt i = true := by
        rw [hupd]
        simp only [Bool.or_eq_true, Bool.and_eq_true, decide_eq_true_eq]
        omega
      rw [hu]
      simp only [eq_self_iff_true, if_true]
      rw [if_neg (show ¬(i < 1) by omega)]
      have hsc := setCurrentIndex_fwd hr (i - 1) none
      rw [show (max 0 (min (i - 1) ((w.length : Int) - 1))).toNat = c by
        omega] at hsc
      obtain ⟨t2, hst2, hw2, hp2, hn2⟩ := hsc
      have hp2len : (s.setCurrentIndex (i - 1) none).prevPath.length =
          c + 1 := by
        rw [hp2]
        simp only [List.length_append, List.length_take, List.length_cons,
          List.length_nil]
        omega
      have hn2len : (s.setCurrentIndex (i - 1) none).nextPath.length =
          w.length - c := by
        rw [hn2]
        simp only [List.length_append, List.length_reverse, List.length_drop,
          List.length_cons, List.length_nil]
        omega
      have hx1 : (0 : Int) ≤ (w.length : Int) - i - 1 := by omega
      have hx2 : (w.length : Int) - i - 1 <
          ((s.setCurrentIndex (i - 1) none).nextPath.length : Int) := by
        rw [hn2len]
        omega
      have hrem : (jsRemoveAt (s.setCurrentIndex (i - 1) none).nextPath
          ((w.length : Int) - i - 1)).length = w.length - c - 1 := by
        rw [length_jsRemoveAt _ _ hx1 hx2, hn2len]
      rw [if_neg (show ¬(i < i - 1) by omega), removal_wrap_length interp]
      rw [length_eval_idle { s.setCurrentIndex (i - 1) none with
          nextPath := jsRemoveAt (s.setCurrentIndex (i - 1) none).nextPath
            ((w.length : Int) - i - 1) }
        hp2len hrem (by omega) hst2]
      omega
    · have hu : s.isUpdateRequiredIfRemoveAt i = false := by
        rw [hupd, Bool.eq_false_iff]
        simp only [ne_eq, Bool.or_eq_true, Bool.and_eq_true,
          decide_eq_true_eq]
        omega
      rw [hu]
      simp only [Bool.false_eq_true, if_false]
      by_cases hic : i < ((c + 2 : Nat) : Int) - 1
      · have hx2 : i < (s.prevPath.length : Int) := by
          rw [hplen]
          push_cast
          omega
        have hrem : (jsRemoveAt s.prevPath i).length = c + 1 := by
          rw [length_jsRemoveAt _ i h0 hx2, hplen]
          omega
        rw [if_pos hic, removal_wrap_length interp]
        rw [length_eval_nonidle { s with
            prevPath := jsRemoveAt s.prevPath i }
          hrem hnlen (by omega) hst]
        omega
      · have hx1 : (0 : Int) ≤ (w.length : Int) - i - 1 := by omega
        have hx2 : (w.length : Int) - i - 1 < (s.nextPath.length : Int) := by
          rw [hnlen]
          omega
        have hrem : (jsRemoveAt s.nextPath
            ((w.length : Int) - i - 1)).length = w.length - c - 1 := by
          rw [length_jsRemoveAt _ _ hx1 hx2, hnlen]
        rw [if_neg hic, removal_wrap_length interp]
        rw [length_eval_nonidle { s with
            nextPath := jsRemoveAt s.nextPath ((w.length : Int) - i - 1) }
          hplen hrem (by omega) hst]
        omega

theorem removeAt_length_bwd [DecidableEq α] (interp : α → α → ℚ → α)
    {s : LAM α} {w : List α} {c : Nat} {t u wp : α}
    (hr : reprBwdAt s w c t u wp) (i : Int) (h0 : 0 ≤ i)
    (hiN : i < (w.length : Int)) :
    (s.removeAt interp i).length = (w.length : Int) - 1 := by
  have hcN : c < w.length := reprBwdAt_lt hr
  have h1c : 1 ≤ c := hr.2.2.1
  have hslen : s.length = (w.length : Int) := length_bwdAt hr
  have hplen : s.prevPath.length = c + 1 := (reprBwdAt_lengths hr).1
  have hnlen : s.nextPath.length = w.length - c + 1 := (reprBwdAt_lengths hr).2
  have hst : s.state ≠ TState.IDLE := hr.1
  have hupd := isUpdateRequired_nonidle hst i h0 (by omega) (by omega)
  rw [hplen, hslen] at hupd
  unfold LAM.removeAt
  dsimp only
  rw [hslen, if_neg (by omega), if_neg (by omega),
      if_neg (show ¬(i < 0) by omega), hplen]
  by_cases hA : i = 0 ∧ c = 1
  · have hu : s.isUpdateRequiredIfRemoveAt i = true := by
      rw [hupd]
      simp only [Bool.or_eq_true, Bool.and_eq_true, decide_eq_true_eq]
      omega
    rw [hu]
    simp only [eq_self_iff_true, if_true]
    rw [if_pos (show i < 1 by omega)]
    have hsc := setCurrentIndex_bwd hr 1 none
    rw [show (max 0 (min 1 ((w.length : Int) - 1))).toNat = 1 by omega] at hsc
    obtain ⟨t2, hst2, hw2, hp2, hn2⟩ := hsc
    have hp2len : (s.setCurrentIndex 1 none).prevPath.length = 2 := by
      rw [hp2]
      simp only [List.length_append, List.length_take, List.length_cons,
        List.length_nil]
      omega
    have hn2len : (s.setCurrentIndex 1 none).nextPath.length =
        w.length - 1 := by
      rw [hn2]
      simp only [List.length_append, List.length_reverse, List.length_drop,
        List.length_cons, List.length_nil]
      omega
    have hx2 : i < ((s.setCurrentIndex 1 none).prevPath.length : Int) := by
      rw [hp2len]
      omega
    have hrem : (jsRemoveAt (s.setCurrentIndex 1 none).prevPath i).length =
        1 := by
      rw [length_jsRemoveAt _ i h0 hx2, hp2len]
    rw [if_pos (show i < 1 by omega), removal_wrap_length interp]
    rw [length_eval_idle { s.setCurrentIndex 1 none with
        prevPath := jsRemoveAt (s.setCurrentIndex 1 none).prevPath i }
      hrem hn2len (by omega) hst2]
    omega
  · by_cases hB : i = (w.length : Int) - 1 ∧ i = (c : Int)
    · have hu : s.isUpdateRequiredIfRemoveAt i = true := by
        rw [hupd]
        simp only [Bool.or_eq_true, Bool.and_eq_true, decide_eq_true_eq]
        omega
      rw [hu]
      simp only [eq_self_iff_true, if_true]
      rw [if_neg (show ¬(i < 1) by omega)]
      have hsc := setCurrentIndex_bwd hr (i - 1) none
      rw [show (max 0 (min (i - 1) ((w.length : Int) - 1))).toNat = c - 1 by
        omega] at hsc
      obtain ⟨t2, hst2, hw2, hp2, hn2⟩ := hsc
      have hp2len : (s.setCurrentIndex (i - 1) none).prevPath.length =
          c := by
        rw [hp2]
        simp only [List.length_append, List.length_take, List.length_cons,
          List.length_nil]
        omega
      have hn2len : (s.setCurrentIndex (i - 1) none).nextPath.length =
          w.length - c + 1 := by
        rw [hn2]
        simp only [List.length_append, List.length_reverse, List.length_drop,
          List.length_cons, List.length_nil]
        omega
      have hx1 : (0 : Int) ≤ (w.length : Int) - i - 1 := by omega
      have hx2 : (w.length : Int) - i - 1 <
          ((s.setCurrentIndex (i - 1) none).nextPath.length : Int) := by
        rw [hn2len]
        omega
      have hrem : (jsRemoveAt (s.setCurrentIndex (i - 1) none).nextPath
          ((w.length : Int) - i - 1)).length = w.length - c := by
        rw [length_jsRemoveAt _ _ hx1 hx2, hn2len]
        omega
      rw [if_neg (show ¬(i < i - 1) by omega), removal_wrap_length interp]
      rw [length_eval_idle { s.setCurrentIndex (i - 1) none with
          nextPath := jsRemoveAt (s.setCurrentIndex (i - 1) none).nextPath
            ((w.length : Int) - i - 1) }
        hp2len hrem (by omega) hst2]
      omega
    · have hu : s.isUpdateRequiredIfRemoveAt i = false := by
        rw [hupd, Bool.eq_false_iff]
        simp only [ne_eq, Bool.or_eq_true, Bool.and_eq_true,
          decide_eq_true_eq]
        omega
      rw [hu]
      simp only [Bool.false_eq_true, if_false]
      by_cases hic : i < ((c + 1 : Nat) : Int) - 1
      · have hx2 : i < (s.prevPath.length : Int) := by
          rw [hplen]
          push_cast
          omega
        have hrem : (jsRemoveAt s.prevPath i).length = c := by
          rw [length_jsRemoveAt _ i h0 hx2, hplen]
          omega
        rw [if_pos hic, removal_wrap_length interp]
        rw [length_eval_nonidle { s with
            prevPath := jsRemoveAt s.prevPath i }
          hrem hnlen (by omega) hst]
        omega
      · have hx1 : (0 : Int) ≤ (w.length : Int) - i - 1 := by omega
        have hx2 : (w.length : Int) - i - 1 < (s.nextPath.length : Int) := by
          rw [hnlen]
          push_cast
          omega
        have hrem : (jsRemoveAt s.nextPath
            ((w.length : Int) - i - 1)).length = w.length - c := by
          rw [length_jsRemoveAt _ _ hx1 hx2, hnlen]
          omega
        rw [if_neg hic, removal_wrap_length interp]
        rw [length_eval_nonidle { s with
            nextPath := jsRemoveAt s.nextPath ((w.length : Int) - i - 1) }
          hplen hrem (by omega) hst]
        omega

/-- C5: the reported `length` is invariant under `setCurrentIndex` for every
index from every reachable engine state (idle, animating forward or backward,
or paused), and under `setAt` at every valid index on an idle engine; it
decreases by exactly one after every in-range `removeAt` from every reachable
state (the final waypoint being removed through `clear()`), and increases by
exactly one after every `insertAt` with a valid location from every reachable
state. -/
theorem C5_length_algebra [DecidableEq α] (interp : α → α → ℚ → α)
    {s : LAM α} {w : List α} {c : Nat}
    (h : (∃ t, reprIdleAt s w c t) ∨ (∃ t u wp, reprFwdAt s w c t u wp) ∨
      (∃ t u wp, reprBwdAt s w c t u wp)) :
    (∀ (idx : Int) (cb : Option Nat),
      (s.setCurrentIndex idx cb).length = s.length) ∧
    (s.state = TState.IDLE → ∀ (i : Int) (loc : α), 0 ≤ i →
      i < (w.length : Int) →
      (s.setAt interp i (some loc)).length = s.length) ∧
    (∀ i : Int, 0 ≤ i → i < (w.length : Int) →
      (s.removeAt interp i).length = s.length - 1) ∧
    (∀ (i : Int) (loc : α),
      (s.insertAt interp i (some loc)).length = s.length + 1) := by
  rcases h with ⟨t, hr⟩ | ⟨t, u, wp, hr⟩ | ⟨t, u, wp, hr⟩
  · have hcw := reprIdleAt_lt hr
    have hslen := length_idleAt hr
    refine ⟨?_, ?_, ?_, ?_⟩
    · intro idx cb
      obtain ⟨t2, h2⟩ := setCurrentIndex_idle hr idx cb
      rw [length_idleAt h2, hslen]
    · intro _ i loc h0 hiN
      obtain ⟨t2, h2⟩ := setAt_idle interp hr i loc h0 hiN
      rw [length_idleAt h2, hslen, List.length_set]
    · intro i h0 hiN
      by_cases hN : w.length = 1
      · rw [removeAt_singleton interp hr hN i h0 hiN, (clear_spec s).2.2.2,
          hslen, hN]
        decide
      · have h2w : 2 ≤ w.length := by omega
        obtain ⟨t2, h2⟩ := removeAt_idle interp hr i h0 hiN h2w
        rw [length_idleAt h2, hslen, List.length_eraseIdx, if_pos (by omega)]
        omega
    · intro i loc
      refine insertAt_length interp s i loc ?_
      rw [hr.2.2.1]
      simp
  · have hslen := length_fwdAt hr
    refine ⟨?_, ?_, ?_, ?_⟩
    · intro idx cb
      obtain ⟨t2, h2⟩ := setCurrentIndex_fwd hr idx cb
      rw [length_idleAt h2, hslen]
    · intro hst
      exact absurd hst hr.1
    · intro i h0 hiN
      rw [removeAt_length_fwd interp hr i h0 hiN, hslen]
    · intro i loc
      refine insertAt_length interp s i loc ?_
      rw [hr.2.2.2.2.1]
      simp
  · have hslen := length_bwdAt hr
    refine ⟨?_, ?_, ?_, ?_⟩
    · intro idx cb
      obtain ⟨t2, h2⟩ := setCurrentIndex_bwd hr idx cb
      rw [length_idleAt h2, hslen]
    · intro hst
      exact absurd hst hr.1
    · intro i h0 hiN
      rw [removeAt_length_bwd interp hr i h0 hiN, hslen]
    · intro i loc
      refine insertAt_length interp s i loc ?_
      rw [hr.2.2.2.2.2.1]
      simp

/-- Witness for C5 at the idle engine over `[10, 20]` and at an engine
animating the segment `10 → 20`. -/
theorem C5_witness :
    reprIdleAt (⟨TState.IDLE, 0, true, none, [10], [20, 10],
      MTM.init none⟩ : LAM Int) [10, 20] 0 10 ∧
    ((⟨TState.IDLE, 0, true, none, [10], [20, 10],
      MTM.init none⟩ : LAM Int).setCurrentIndex 5 none).length =
      (⟨TState.IDLE, 0, true, none, [10], [20, 10],
        MTM.init none⟩ : LAM Int).length ∧
    ((⟨TState.IDLE, 0, true, none, [10], [20, 10],
      MTM.init none⟩ : LAM Int).setAt (fun a _ _ => a) 1 (some 7)).length =
      (⟨TState.IDLE, 0, true, none, [10], [20, 10],
        MTM.init none⟩ : LAM Int).length ∧
    ((⟨TState.IDLE, 0, true, none, [10], [20, 10],
      MTM.init none⟩ : LAM Int).removeAt (fun a _ _ => a) 1).length =
      (⟨TState.IDLE, 0, true, none, [10], [20, 10],
        MTM.init none⟩ : LAM Int).length - 1 ∧
    ((⟨TState.IDLE, 0, true, none, [10], [20, 10],
      MTM.init none⟩ : LAM Int).insertAt (fun a _ _ => a) (-3)
      (some 9)).length =
      (⟨TState.IDLE, 0, true, none, [10], [20, 10],
        MTM.init none⟩ : LAM Int).length + 1 ∧
    reprFwdAt (⟨TState.ANIMATING, mkRat 1 2, true, none, [10, 15], [20, 15],
      MTM.init none⟩ : LAM Int) [10, 20] 0 10 20 15 ∧
    ((⟨TState.ANIMATING, mkRat 1 2, true, none, [10, 15], [20, 15],
      MTM.init none⟩ : LAM Int).removeAt (fun a _ _ => a) 1).length =
      (⟨TState.ANIMATING, mkRat 1 2, true, none, [10, 15], [20, 15],
        MTM.init none⟩ : LAM Int).length - 1 ∧
    ((⟨TState.ANIMATING, mkRat 1 2, true, none, [10, 15], [20, 15],
      MTM.init none⟩ : LAM Int).insertAt (fun a _ _ => a) 0
      (some 7)).length =
      (⟨TState.ANIMATING, mkRat 1 2, true, none, [10, 15], [20, 15],
        MTM.init none⟩ : LAM Int).length + 1 ∧
    ((⟨TState.ANIMATING, mkRat 1 2, true, none, [10, 15], [20, 15],
      MTM.init none⟩ : LAM Int).setCurrentIndex 0 none).length =
      (⟨TState.ANIMATING, mkRat 1 2, true, none, [10, 15], [20, 15],
        MTM.init none⟩ : LAM Int).length := by
  have hrep : reprIdleAt (⟨TState.IDLE, 0, true, none, [10], [20, 10],
      MTM.init none⟩ : LAM Int) [10, 20] 0 10 := ⟨rfl, rfl, rfl, rfl⟩
  have hfwd : reprFwdAt (⟨TState.ANIMATING, mkRat 1 2, true, none, [10, 15],
      [20, 15], MTM.init none⟩ : LAM Int) [10, 20] 0 10 20 15 :=
    ⟨by decide, rfl, rfl, rfl, rfl, rfl⟩
  have h := C5_length_algebra (fun a _ _ => a) (Or.inl ⟨10, hrep⟩)
  have h2 := C5_length_algebra (fun a _ _ => a)
    (Or.inr (Or.inl ⟨10, 20, 15, hfwd⟩))
  exact ⟨hrep, h.1 5 none, h.2.1 rfl 1 7 (by decide) (by decide),
    h.2.2.1 1 (by decide) (by decide), h.2.2.2 (-3) 9, hfwd,
    h2.2.2.1 1 (by decide) (by decide), h2.2.2.2 0 7, h2.1 0 none⟩

end Storyboard
